import Mathlib

/-!
# A shallow embedding of `sudoku.go`

The Go program keeps a grid of 81 candidate sets (`Field`, a `uint` used as a
bitset over the digits 1..9), assigns digits with `SetField`, which cascades
eliminations through `remove`, and completes a grid by the backtracking search
`solve`.

Conventions of the embedding:

* `uint` values are natural numbers below `2 ^ 64`; the only places where the
  width matters are `num - 1` in `bit` and the complement `^bit(num)` in
  `Field.set`, both written with an explicit `2 ^ 64`.
* `int` coordinates are natural numbers (every caller in the program passes
  non-negative values).
* A Go function that mutates the grid it is called on becomes a function that
  returns the grid after the call, next to its `error` result, so the state a
  failed call leaves behind is visible.
* `log.Fatalf` and run-time panics do not return; they are the outcomes
  `Run.fatal` and `Run.panic`.
* `SetField` and `remove` call each other and `solve` calls itself; the
  embedding bounds the nesting depth by a counter (`Run.nofuel` when it is
  used up) and the entry points pick a counter that is never used up.
-/

namespace GoSudoku

/-! ## Outcomes -/

/-- Outcome of running a Go function whose normal result has type `α`. -/
inductive Run (α : Type) where
  /-- The function returned. -/
  | ret (a : α) : Run α
  /-- The process was ended by `log.Fatalf`. -/
  | fatal : Run α
  /-- A run-time panic (index out of range). -/
  | panic : Run α
  /-- The nesting counter of the embedding was used up. -/
  | nofuel : Run α
  deriving DecidableEq, Repr

/-- Sequencing of outcomes: anything but a normal return ends the run. -/
def Run.bind {α β : Type} : Run α → (α → Run β) → Run β
  | .ret a, k => k a
  | .fatal, _ => .fatal
  | .panic, _ => .panic
  | .nofuel, _ => .nofuel

instance : Monad Run where
  pure := Run.ret
  bind := Run.bind

/-- A candidate set: `type Field uint`. -/
abbrev Field := Nat

/-- The values built by `fmt.Errorf`, kept as data instead of text. -/
inductive Error where
  /-- The text `"%s.removeChecked(%d) == 0"`. -/
  | removeChecked (f : Field) (num : Nat) : Error
  /-- The text `"(%d, %d): %s"` wrapping another error. -/
  | cell (x y : Nat) (err : Error) : Error
  /-- The text `"(%d, %d): %s.set(%d)"`. -/
  | set (x y : Nat) (f : Field) (num : Nat) : Error
  /-- The text `"No choice at (%d, %d): %s"` wrapping the last error. -/
  | noChoice (x y : Nat) (lastErr : Error) : Error
  /-- The same text when `lastErr` is still nil. -/
  | noChoiceNil (x y : Nat) : Error
  deriving DecidableEq, Repr

/-- The error built at the end of `solve` from the variable `lastErr`. -/
def Error.ofLast (x y : Nat) : Option Error → Error
  | some err => .noChoice x y err
  | none => .noChoiceNil x y

/-! ## Candidate sets -/

/-- The Go function `bit`: `num - 1` wraps around on `uint`, and an exponent
above 8 ends the process (`num < 0` never holds for a `uint`). -/
def bit (num : Nat) : Run Nat :=
  let num := (2 ^ 64 + num - 1) % 2 ^ 64
  if num > 8 then .fatal else .ret (1 <<< num)

/-- The Go method `Field.set`. -/
def Field.set (f : Field) (num : Nat) (val : Bool) : Run Field :=
  if val then
    (bit num).bind fun b => .ret (f ||| b)
  else
    (bit num).bind fun b => .ret (f &&& (2 ^ 64 - 1 - b))

/-- The Go method `Field.has`. -/
def Field.has (f : Field) (num : Nat) : Run Bool :=
  (bit num).bind fun b => .ret (f &&& b != 0)

/-- The Go method `Field.add`. -/
def Field.add (f : Field) (num : Nat) : Run Field :=
  f.set num true

/-- The Go method `Field.remove`. -/
def Field.remove (f : Field) (num : Nat) : Run Field :=
  f.set num false

/-- The loop of `Field.members`: `res` is the slice built so far. -/
def Field.membersLoop (f : Field) : List Nat → List Nat → Run (List Nat)
  | [], res => .ret res
  | i :: rest, res =>
    (f.has i).bind fun h => Field.membersLoop f rest (if h then res ++ [i] else res)

/-- The Go method `Field.members`: `for i := uint(1); i < 10; i++`. -/
def Field.members (f : Field) : Run (List Nat) :=
  f.membersLoop (List.range' 1 9) []

/-- The Go method `Field.removeChecked`; the second component is the error. -/
def Field.removeChecked (f : Field) (num : Nat) : Run (Field × Option Error) :=
  (f.set num false).bind fun f2 =>
    if f2 = 0 then .ret (f, some (.removeChecked f num)) else .ret (f2, none)

/-- The loop of `Field.String`: `buf` is the byte array, `i + 1` cannot wrap
around for the `i` below 9 of the loop, and `byte('1' + i)` is the sum on
`uint` cut down to eight bits. -/
def Field.stringLoop (f : Field) : List Nat → List Nat → Run (List Nat)
  | [], buf => .ret buf
  | i :: rest, buf =>
    (f.has (i + 1)).bind fun h =>
      Field.stringLoop f rest (buf.set i (if h then (49 + i) % 2 ^ 64 % 256 else 32))

/-- The Go method `Field.String`: `for i := uint(0); i < 9; i++` over a zeroed
`[9]byte`. Every byte written is below 128, so each byte of the array is one
character of the string. -/
def Field.String (f : Field) : Run String :=
  (f.stringLoop (List.range 9) (List.replicate 9 0)).bind fun buf =>
    .ret (String.mk (buf.map Char.ofNat))

/-- The package variable `AllPossible`. -/
def AllPossible : Run Field :=
  ((((((((Field.add 0 1).bind (Field.add · 2)).bind (Field.add · 3)).bind
    (Field.add · 4)).bind (Field.add · 5)).bind (Field.add · 6)).bind
    (Field.add · 7)).bind (Field.add · 8)).bind (Field.add · 9)

/-! ## Grids -/

/-- A grid: `type Sudoku []Field`. -/
abbrev Sudoku := List Field

/-- What a grid method hands back: the grid after the call and its `error`. -/
abbrev Result := Run (Sudoku × Option Error)

/-- The Go function `NewSudoku`. -/
def NewSudoku : Run Sudoku :=
  AllPossible.bind fun a => .ret (List.replicate (9 * 9) a)

/-- The Go method `Sudoku.coord`. -/
def Sudoku.coord (_s : Sudoku) (x y : Nat) : Nat :=
  y * 9 + x

/-- Reading `s[i]`, which panics outside the slice. -/
def Sudoku.index (s : Sudoku) (i : Nat) : Run Field :=
  match s[i]? with
  | some f => .ret f
  | none => .panic

/-- The Go method `Sudoku.GetField`. -/
def Sudoku.GetField (s : Sudoku) (x y : Nat) : Run Field :=
  s.index (s.coord x y)

/-- The Go method `Sudoku.remove`, with the `SetField` it calls as a
parameter. The error of that call is dropped, as in the source. -/
def Sudoku.removeWith (setField : Sudoku → Nat → Nat → Nat → Result)
    (s : Sudoku) (x y num : Nat) : Result :=
  (s.index (s.coord x y)).bind fun f =>
  (f.removeChecked num).bind fun r =>
    match r with
    | (_, some err) => .ret (s, some (.cell x y err))
    | (f2, none) =>
      let s1 := s.set (s.coord x y) f2
      if f2 ≠ f then
        f2.members.bind fun m =>
          if m.length = 1 then
            f2.members.bind fun m2 =>
              match m2 with
              | [] => .panic
              | d :: _ => (setField s1 x y d).bind fun r2 => .ret (r2.1, none)
          else .ret (s1, none)
      else .ret (s1, none)

/-- Two statements in a row, the second skipped when the first fails:
`if err := ...; err != nil { return err }`. -/
def seqErr (a b : Sudoku → Result) (s : Sudoku) : Result :=
  (a s).bind fun r =>
    match r with
    | (s1, none) => b s1
    | (s1, some err) => .ret (s1, some err)

/-- A `for` loop over `xs` whose body returns from the function on an error. -/
def forErr {α : Type} (body : α → Sudoku → Result) : List α → Sudoku → Result
  | [], s => .ret (s, none)
  | a :: rest, s => seqErr (body a) (forErr body rest) s

/-- The two loops of `Sudoku.SetField` over the peers of `(x, y)`, with the
`remove` they call as a parameter: first the column and row cells, then the
cells of the 3x3 box that are in neither. -/
def Sudoku.peerLoops (remove : Sudoku → Nat → Nat → Nat → Result) (x y num : Nat) :
    Sudoku → Result :=
  seqErr
    (forErr (fun i =>
      seqErr
        (fun t => if i ≠ y then remove t x i num else .ret (t, none))
        (fun t => if i ≠ x then remove t i y num else .ret (t, none)))
      (List.range 9))
    (forErr (fun xx =>
      forErr (fun yy t =>
        if xx ≠ x ∧ yy ≠ y then remove t xx yy num else .ret (t, none))
        (List.range' (y / 3 * 3) 3))
      (List.range' (x / 3 * 3) 3))

/-- The Go method `Sudoku.SetField` with a bound on the nesting depth. -/
def Sudoku.SetFieldN : Nat → Sudoku → Nat → Nat → Nat → Result
  | 0, _, _, _, _ => .nofuel
  | fuel + 1, s, x, y, num =>
    (s.index (s.coord x y)).bind fun f =>
    (f.has num).bind fun h =>
      if !h then .ret (s, some (.set x y f num))
      else
        (Field.add 0 num).bind fun v =>
          Sudoku.peerLoops (Sudoku.removeWith (Sudoku.SetFieldN fuel)) x y num
            (s.set (s.coord x y) v)

/-- The Go method `Sudoku.remove` at nesting bound `fuel`. -/
def Sudoku.removeN (fuel : Nat) (s : Sudoku) (x y num : Nat) : Result :=
  Sudoku.removeWith (Sudoku.SetFieldN fuel) s x y num

/-- The Go method `Sudoku.SetField`. -/
def Sudoku.SetField (s : Sudoku) (x y num : Nat) : Result :=
  Sudoku.SetFieldN (9 * s.length + 1) s x y num

/-- The Go method `Sudoku.remove`. -/
def Sudoku.remove (s : Sudoku) (x y num : Nat) : Result :=
  Sudoku.removeN (9 * s.length + 1) s x y num

/-- The inner loop of `solve` over the choices of cell `i`; `lastErr` is the
variable of that name and `recur` the recursive call. -/
def Sudoku.tryChoices (recur : Sudoku → Nat → Result) (s : Sudoku) (i : Nat) :
    List Nat → Option Error → Result
  | [], lastErr => .ret (s, some (Error.ofLast (i % 9) (i / 9) lastErr))
  | num :: rest, lastErr =>
    (Sudoku.SetField s (i % 9) (i / 9) num).bind fun r =>
      match r with
      | (_, some _) => Sudoku.tryChoices recur s i rest lastErr
      | (s2, none) =>
        (recur s2 (i + 1)).bind fun r2 =>
          match r2 with
          | (res, none) => .ret (res, none)
          | (_, some err) => Sudoku.tryChoices recur s i rest (some err)

/-- The outer loop of `solve`: `vs` is what is left of `s[at:]` and `i` the
index of its head. -/
def Sudoku.scan (recur : Sudoku → Nat → Result) (s : Sudoku) :
    List Field → Nat → Result
  | [], _ => .ret (s, none)
  | v :: vs, i =>
    v.members.bind fun choices =>
      if choices.length > 1 then Sudoku.tryChoices recur s i choices none
      else Sudoku.scan recur s vs (i + 1)

/-- The Go method `Sudoku.solve` with a bound on the recursion depth. Slicing
`s[at:]` panics when `at` is beyond the length. -/
def Sudoku.solveN : Nat → Sudoku → Nat → Result
  | 0, _, _ => .nofuel
  | fuel + 1, s, start =>
    if start > s.length then .panic
    else Sudoku.scan (Sudoku.solveN fuel) s (s.drop start) start

/-- The Go method `Sudoku.solve`. -/
def Sudoku.solve (s : Sudoku) (start : Nat) : Result :=
  Sudoku.solveN (s.length + 1 - start) s start

/-- The Go method `Sudoku.Solve`. -/
def Sudoku.Solve (s : Sudoku) : Result :=
  s.solve 0

/-! ## The parser -/

/-- The Go library function `unicode.IsSpace`, which `strings.TrimSpace` uses. -/
def isSpace (c : Char) : Bool :=
  (9 ≤ c.toNat ∧ c.toNat ≤ 13) ∨ c.toNat = 32 ∨ c.toNat = 0x85 ∨ c.toNat = 0xA0 ∨
    c.toNat = 0x1680 ∨ (0x2000 ≤ c.toNat ∧ c.toNat ≤ 0x200A) ∨ c.toNat = 0x2028 ∨
    c.toNat = 0x2029 ∨ c.toNat = 0x202F ∨ c.toNat = 0x205F ∨ c.toNat = 0x3000

/-- The Go library call `strings.Split(in, "\n")` on the runes of the text. -/
def splitLines : List Char → List (List Char)
  | [] => [[]]
  | c :: cs =>
    if c.toNat = 10 then [] :: splitLines cs
    else
      match splitLines cs with
      | line :: rest => (c :: line) :: rest
      | [] => [[c]]

/-- The inner loop of `Parse` over the runes of one line; `x` is the column
reached. A digit `'0'`..`'9'` is handed to `SetField`. -/
def parseLine (y : Nat) : List Char → Nat → Sudoku → Result
  | [], _, s => .ret (s, none)
  | field :: rest, x, s =>
    if field.toNat = 95 then parseLine y rest (x + 1) s
    else if field.toNat < 48 ∨ field.toNat > 57 then parseLine y rest x s
    else
      (Sudoku.SetField s x y (field.toNat - 48)).bind fun r =>
        match r with
        | (s1, some err) => .ret (s1, some err)
        | (s1, none) => parseLine y rest (x + 1) s1

/-- The outer loop of `Parse` over the lines; `y` is the row reached. Lines
that are blank after `strings.TrimSpace` are skipped. -/
def parseLines : List (List Char) → Nat → Sudoku → Result
  | [], _, s => .ret (s, none)
  | line :: rest, y, s =>
    if line.all isSpace then parseLines rest y s
    else
      (parseLine y line 0 s).bind fun r =>
        match r with
        | (s1, some err) => .ret (s1, some err)
        | (s1, none) => parseLines rest (y + 1) s1

/-- The Go function `Parse`; on an error it returns the nil slice. -/
def Parse (input : String) : Result :=
  AllPossible.bind fun a =>
    (parseLines (splitLines input.toList) 0 (List.replicate (9 * 9) a)).bind fun r =>
      match r with
      | (_, some err) => .ret ([], some err)
      | (s, none) => .ret (s, none)

/-! ## Vocabulary of the statements -/

/-- The value `f &^ bit(num)`: the candidate set `f` without the digit `num`. -/
def Field.clear (f : Field) (num : Nat) : Field :=
  f &&& (2 ^ 64 - 1 - 2 ^ (num - 1))

/-- Membership of the digit `num`, read off the bit pattern. -/
def Field.mem (f : Field) (num : Nat) : Bool :=
  f.testBit (num - 1)

/-- The digits of `f` in ascending order. -/
def Field.digits (f : Field) : List Nat :=
  (List.range' 1 9).filter fun d => f.mem d

/-- The number of candidates of `f` among the digits 1..9. -/
def Field.count (f : Field) : Nat :=
  (f.testBit 0).toNat + (f.testBit 1).toNat + (f.testBit 2).toNat + (f.testBit 3).toNat +
    (f.testBit 4).toNat + (f.testBit 5).toNat + (f.testBit 6).toNat + (f.testBit 7).toNat +
    (f.testBit 8).toNat

/-- The set `g` is `f` narrowed: no new bit, and not emptied. -/
def Field.Sub (g f : Field) : Prop :=
  (∀ k, g.testBit k = true → f.testBit k = true) ∧ (f ≠ 0 → g ≠ 0)

/-- The grid `t` is `s` narrowed cell by cell. -/
def Sudoku.Le (t s : Sudoku) : Prop :=
  List.Forall₂ Field.Sub t s

/-- The number of candidates in the grid. Every nested `SetField` comes after
a removal, so it bounds the nesting depth. -/
def Sudoku.weight (s : Sudoku) : Nat :=
  (s.map Field.count).sum

/-- A grid of 81 `uint` cells with at most `n` candidates in all. -/
def Sudoku.Good (n : Nat) (s : Sudoku) : Prop :=
  s.length = 81 ∧ (∀ f ∈ s, f < 2 ^ 64) ∧ s.weight ≤ n

/-- Cell `(x, y)` of `s` exists and does not have the digit `num`. -/
def Sudoku.Lacks (s : Sudoku) (x y num : Nat) : Prop :=
  ∃ g, s[y * 9 + x]? = some g ∧ g.mem num = false

/-- The statement `c` returns on every good grid, narrows it, and establishes
`Q` when it reports no error. -/
def Sound (n : Nat) (c : Sudoku → Result) (Q : Sudoku → Prop) : Prop :=
  ∀ s, s.Good n → ∃ t e, c s = .ret (t, e) ∧ t.Le s ∧ (e = none → Q t)

/-- A property of grids that survives narrowing. -/
def Closed (Q : Sudoku → Prop) : Prop :=
  ∀ s t, Q s → Sudoku.Le t s → Q t

/-- Whenever `c` returns from a grid satisfying `I`, it reports no error and
`I` holds again. -/
def Keeps (I : Sudoku → Prop) (c : Sudoku → Result) : Prop :=
  ∀ s t e, I s → c s = .ret (t, e) → e = none ∧ I t

/-- The cells of row `y`, as `(x, y)` pairs. -/
def rowCells (y : Nat) : List (Nat × Nat) :=
  (List.range 9).map fun x => (x, y)

/-- The cells of column `x`. -/
def colCells (x : Nat) : List (Nat × Nat) :=
  (List.range 9).map fun y => (x, y)

/-- The cells of the 3x3 box number `b` (boxes counted row by row). -/
def boxCells (b : Nat) : List (Nat × Nat) :=
  (List.range 9).map fun k => (b % 3 * 3 + k % 3, b / 3 * 3 + k / 3)

/-- The 27 units: nine rows, nine columns, nine boxes. -/
def units : List (List (Nat × Nat)) :=
  (List.range 9).map rowCells ++ (List.range 9).map colCells ++ (List.range 9).map boxCells

/-- Two distinct cells that share a row, a column or a 3x3 box. -/
def Peers (x y x1 y1 : Nat) : Prop :=
  (x1, y1) ≠ (x, y) ∧ (x1 = x ∨ y1 = y ∨ (x1 / 3 = x / 3 ∧ y1 / 3 = y / 3))

/-- What a successful `SetField(x, y, num)` leaves behind: the cell holds
exactly `num` and no peer has `num` any more. -/
def Sudoku.Assigned (t : Sudoku) (x y num : Nat) : Prop :=
  t[y * 9 + x]? = some (2 ^ (num - 1)) ∧
    ∀ x1 y1, x1 < 9 → y1 < 9 → Peers x y x1 y1 → Sudoku.Lacks t x1 y1 num

/-- A grid of 81 `uint` cells. -/
def Sudoku.WF (s : Sudoku) : Prop :=
  s.length = 81 ∧ ∀ f ∈ s, f < 2 ^ 64

/-- A completed Sudoku, given as the digit of every cell: every row, column
and 3x3 box contains each of 1..9 exactly once. -/
def Complete (sol : Nat → Nat → Nat) : Prop :=
  ∀ u ∈ units, ∀ d ∈ List.range' 1 9, (u.filter fun c => sol c.1 c.2 = d).length = 1

/-- The digit of every cell of `sol` is a member of the matching cell of `s`. -/
def Compat (sol : Nat → Nat → Nat) (s : Sudoku) : Prop :=
  ∀ x y, x < 9 → y < 9 → ∃ f, s[y * 9 + x]? = some f ∧ sol x y ∈ f.digits

/-- No two peers hold the same digit in `sol`. -/
def PeerFree (sol : Nat → Nat → Nat) : Prop :=
  ∀ x y x1 y1, x < 9 → y < 9 → x1 < 9 → y1 < 9 → Peers x y x1 y1 → sol x1 y1 ≠ sol x y

/-- Grids reachable from `NewSudoku()` by `SetField` calls, with coordinates
in 0..8 and digits in 1..9, that all returned no error. -/
inductive Reachable : Sudoku → Prop where
  | new {s : Sudoku} : NewSudoku = .ret s → Reachable s
  | step {s t : Sudoku} {x y d : Nat} : Reachable s → x < 9 → y < 9 → 1 ≤ d → d ≤ 9 →
      Sudoku.SetField s x y d = .ret (t, none) → Reachable t

/-- A sequence of `SetField(x, y, d)` calls on one grid, stopping at the
first error. -/
def Sudoku.SetFields : List (Nat × Nat × Nat) → Sudoku → Result
  | [], s => .ret (s, none)
  | (x, y, d) :: rest, s =>
    (Sudoku.SetField s x y d).bind fun r =>
      match r with
      | (s1, none) => Sudoku.SetFields rest s1
      | (s1, some err) => .ret (s1, some err)

/-- The claim behind a solved grid: for each of the 27 units and each digit
1..9, exactly one cell of the unit holds the singleton of that digit. -/
def Solved (t : Sudoku) : Prop :=
  ∀ u ∈ units, ∀ d ∈ List.range' 1 9,
    (u.filter fun c => t.GetField c.1 c.2 = Field.add 0 d).length = 1

/-! ## Example grids -/

/-- The grid `NewSudoku()` returns: every cell holds all nine digits. -/
def Example.fresh : Sudoku :=
  [
    511, 511, 511, 511, 511, 511, 511, 511, 511,
    511, 511, 511, 511, 511, 511, 511, 511, 511,
    511, 511, 511, 511, 511, 511, 511, 511, 511,
    511, 511, 511, 511, 511, 511, 511, 511, 511,
    511, 511, 511, 511, 511, 511, 511, 511, 511,
    511, 511, 511, 511, 511, 511, 511, 511, 511,
    511, 511, 511, 511, 511, 511, 511, 511, 511,
    511, 511, 511, 511, 511, 511, 511, 511, 511,
    511, 511, 511, 511, 511, 511, 511, 511, 511
  ]

/-- The fresh grid after `SetField(0, 0, 1)`. -/
def Example.afterOne : Sudoku :=
  [
    1, 510, 510, 510, 510, 510, 510, 510, 510,
    510, 510, 510, 511, 511, 511, 511, 511, 511,
    510, 510, 510, 511, 511, 511, 511, 511, 511,
    510, 511, 511, 511, 511, 511, 511, 511, 511,
    510, 511, 511, 511, 511, 511, 511, 511, 511,
    510, 511, 511, 511, 511, 511, 511, 511, 511,
    510, 511, 511, 511, 511, 511, 511, 511, 511,
    510, 511, 511, 511, 511, 511, 511, 511, 511,
    510, 511, 511, 511, 511, 511, 511, 511, 511
  ]

/-- A grid whose first cell has the candidates 1 and 2 while its row already holds
both digits. -/
def Example.stuck : Sudoku :=
  [
    3, 1, 2, 511, 511, 511, 511, 511, 511,
    511, 511, 511, 511, 511, 511, 511, 511, 511,
    511, 511, 511, 511, 511, 511, 511, 511, 511,
    511, 511, 511, 511, 511, 511, 511, 511, 511,
    511, 511, 511, 511, 511, 511, 511, 511, 511,
    511, 511, 511, 511, 511, 511, 511, 511, 511,
    511, 511, 511, 511, 511, 511, 511, 511, 511,
    511, 511, 511, 511, 511, 511, 511, 511, 511,
    511, 511, 511, 511, 511, 511, 511, 511, 511
  ]

/-- The grid `Parse` builds from the example puzzle. -/
def Example.parsed : Sudoku :=
  [
    129, 2, 129, 256, 117, 97, 8, 132, 180,
    256, 64, 16, 8, 38, 34, 1, 134, 166,
    9, 32, 4, 82, 83, 128, 80, 258, 274,
    26, 280, 10, 1, 390, 258, 20, 32, 64,
    115, 273, 35, 102, 8, 354, 20, 389, 404,
    4, 128, 41, 96, 352, 16, 2, 265, 264,
    59, 29, 43, 128, 51, 35, 256, 64, 46,
    58, 24, 64, 50, 306, 4, 128, 10, 1,
    163, 5, 256, 98, 99, 8, 36, 16, 38
  ]

/-- The solution of the example puzzle, one singleton per cell. -/
def Example.solved : Sudoku :=
  [
    1, 2, 128, 256, 16, 64, 8, 4, 32,
    256, 64, 16, 8, 4, 32, 1, 128, 2,
    8, 32, 4, 2, 1, 128, 64, 256, 16,
    2, 16, 8, 1, 128, 256, 4, 32, 64,
    64, 256, 32, 4, 8, 2, 16, 1, 128,
    4, 128, 1, 32, 64, 16, 2, 8, 256,
    16, 4, 2, 128, 32, 1, 256, 64, 8,
    32, 8, 64, 16, 256, 4, 128, 2, 1,
    128, 1, 256, 64, 2, 8, 32, 16, 4
  ]

/-- The grid after the eight assignments of `Example.dupSteps`: the cells (7, 4)
and (8, 4) of row 4 both hold exactly the digit 4. -/
def Example.twoFours : Sudoku :=
  [
    509, 505, 445, 381, 253, 508, 493, 469, 2,
    511, 507, 447, 383, 255, 510, 493, 469, 501,
    511, 507, 447, 383, 255, 510, 493, 469, 501,
    427, 427, 427, 110, 110, 110, 16, 453, 453,
    48, 4, 64, 128, 256, 1, 2, 8, 8,
    411, 411, 411, 94, 94, 94, 461, 32, 453,
    511, 507, 447, 383, 255, 510, 493, 471, 501,
    511, 507, 447, 383, 255, 510, 493, 471, 501,
    511, 507, 447, 383, 255, 510, 493, 471, 509
  ]

/-- The fresh grid after `SetField(8, 1, 4)`. -/
def Example.oneGiven : Sudoku :=
  [
    511, 511, 511, 511, 511, 511, 503, 503, 503,
    503, 503, 503, 503, 503, 503, 503, 503, 8,
    511, 511, 511, 511, 511, 511, 503, 503, 503,
    511, 511, 511, 511, 511, 511, 511, 511, 503,
    511, 511, 511, 511, 511, 511, 511, 511, 503,
    511, 511, 511, 511, 511, 511, 511, 511, 503,
    511, 511, 511, 511, 511, 511, 511, 511, 503,
    511, 511, 511, 511, 511, 511, 511, 511, 503,
    511, 511, 511, 511, 511, 511, 511, 511, 503
  ]

/-- The grid `Solve` returns, with no error, on `Example.oneGiven`: row 4 holds
the digit 2 twice and the digit 9 nowhere. -/
def Example.bogus : Sudoku :=
  [
    1, 2, 4, 8, 16, 32, 64, 128, 256,
    16, 32, 64, 1, 128, 256, 2, 4, 8,
    8, 128, 256, 2, 4, 64, 1, 16, 32,
    2, 1, 8, 4, 32, 16, 128, 256, 64,
    4, 16, 128, 64, 1, 8, 32, 2, 2,
    64, 256, 32, 128, 256, 2, 4, 1, 16,
    32, 4, 2, 16, 8, 1, 256, 64, 128,
    128, 8, 1, 256, 64, 4, 16, 32, 4,
    256, 64, 16, 32, 2, 128, 8, 8, 1
  ]

/-- Eight assignments, each accepted by `SetField`, that lead from the fresh
grid to `Example.twoFours`. -/
def Example.dupSteps : List (Nat × Nat × Nat) :=
  [(4, 4, 9), (5, 4, 1), (7, 5, 6), (6, 3, 5), (8, 0, 2), (3, 4, 8), (2, 4, 7), (1, 4, 3)]

/-- The example puzzle of `TestSolve` and `main`. -/
def Example.puzzle : String := "
    _2_9__4__
    9_54__1__
    _63__8___

    ___1___67
    ____4____
    38___5___

    ___8__97_
    __7__38_1
    __9__4_5_"

/-- The expected solution as `TestSolve` writes it. -/
def Example.solutionText : String := "
    128 957 436
    975 436 182
    463 218 795

    254 189 367
    796 342 518
    381 675 249

    532 861 974
    647 593 821
    819 724 653"

/-- The digits of the expected solution, row by row. -/
def Example.solutionRows : List (List Nat) :=
  [[1, 2, 8, 9, 5, 7, 4, 3, 6],
   [9, 7, 5, 4, 3, 6, 1, 8, 2],
   [4, 6, 3, 2, 1, 8, 7, 9, 5],
   [2, 5, 4, 1, 8, 9, 3, 6, 7],
   [7, 9, 6, 3, 4, 2, 5, 1, 8],
   [3, 8, 1, 6, 7, 5, 2, 4, 9],
   [5, 3, 2, 8, 6, 1, 9, 7, 4],
   [6, 4, 7, 5, 9, 3, 8, 2, 1],
   [8, 1, 9, 7, 2, 4, 6, 5, 3]]

/-- The digit of cell `(x, y)` in the expected solution. -/
def Example.solution (x y : Nat) : Nat :=
  (Example.solutionRows.getD y []).getD x 0

/-- The candidate set `f` can lose the digit `d` without an error and without
becoming a singleton. -/
def Field.Quiet (f : Field) (d : Nat) : Prop :=
  f.clear d ≠ 0 ∧ (f.clear d ≠ f → (f.clear d).digits.length ≠ 1)

/-- The statement `c` removes `d` from exactly the cells whose index
satisfies `P` and touches nothing else, provided those cells are quiet. -/
def Exact (d : Nat) (c : Sudoku → Result) (P : Nat → Prop) : Prop :=
  ∀ s : Sudoku, (∀ i, P i → i < s.length) → (∀ i f, P i → s[i]? = some f → f.Quiet d) →
    ∃ t, c s = .ret (t, none) ∧ t.length = s.length ∧
      ∀ i, (P i → t[i]? = (s[i]?).map fun f => f.clear d) ∧ (¬ P i → t[i]? = s[i]?)

/-- The hypothesis of the no-cascade claim on the candidate set `g` of a peer:
it is not the singleton of `d`, and it does not both have `d` and have exactly
two candidates. -/
def Field.Calm (g : Field) (d : Nat) : Prop :=
  Field.add 0 d ≠ .ret g ∧
    ¬ (g.has d = .ret true ∧ (g.members.bind fun m => .ret m.length) = .ret 2)

/-- The fresh grid with cell (1, 0) emptied. -/
def Example.emptyPeer : Sudoku :=
  Example.fresh.set 1 0

/-- All 81 positions. -/
def allCells : List (Nat × Nat) :=
  (List.range 9).flatMap fun y => (List.range 9).map fun x => (x, y)

/-! ## Vocabulary of the statements on the search and the parser -/

/-- The first `n` cells of `s` each hold exactly one digit of 1..9. -/
def Sudoku.Fixed (s : Sudoku) (n : Nat) : Prop :=
  ∀ j, j < n → ∃ d, 1 ≤ d ∧ d ≤ 9 ∧ s[j]? = some (2 ^ (d - 1))

/-- A grid of 81 cells, each a non-empty subset of 1..9. -/
def Sudoku.Open (s : Sudoku) : Prop :=
  s.length = 81 ∧ ∀ f ∈ s, f ≠ 0 ∧ f < 512

/-- The grid of the fresh one with {1, 2} at (0, 1) and {2} at (0, 2). -/
def Example.pinned : Sudoku :=
  (Example.fresh.set 9 3).set 18 2

/-- The characters of a line that `Parse` counts as a cell: those it does not
skip, which are `_` and the digits. -/
def cellChars (line : List Char) : List Char :=
  line.filter fun field => field.toNat = 95 ∨ ¬ (field.toNat < 48 ∨ field.toNat > 57)

/-- The lines of a text that `Parse` does not skip as blank. -/
def rowsOf (input : String) : List (List Char) :=
  (splitLines input.toList).filter fun line => !line.all isSpace

/-! ## Grids packed into one number

The grid functions once more, on a grid kept as one natural number with 64
bits per cell. They are proved below to compute what the functions on lists
compute, and serve to evaluate the examples. -/

/-- Cell `i` of a grid packed into one number, 64 bits per cell. -/
def Packed.get (g i : Nat) : Nat :=
  (g >>> (64 * i)) % 2 ^ 64

/-- The packed grid `g` with cell `i` replaced by `v`. -/
def Packed.set (g i v : Nat) : Nat :=
  (g ^^^ (Packed.get g i <<< (64 * i))) ||| (v <<< (64 * i))

/-- The grid of 81 cells a packed number stands for. -/
def Packed.unpack (g : Nat) : Sudoku :=
  (List.range 81).map (Packed.get g)

/-- Packing a grid, first cell lowest. -/
def Packed.pack : Sudoku → Nat
  | [] => 0
  | f :: s => f + 2 ^ 64 * Packed.pack s

/-- What a grid method hands back on packed grids. -/
abbrev Packed.Result := Run (Nat × Option Error)

/-- Reading `s[i]` on a packed grid of 81 cells. -/
def Packed.index (g i : Nat) : Run Field :=
  if i < 81 then .ret (Packed.get g i) else .panic

/-- The method `Sudoku.remove` on packed grids. -/
def Packed.removeWith (setField : Nat → Nat → Nat → Nat → Packed.Result)
    (g x y num : Nat) : Packed.Result :=
  (Packed.index g (y * 9 + x)).bind fun f =>
  (f.removeChecked num).bind fun r =>
    match r with
    | (_, some err) => .ret (g, some (.cell x y err))
    | (f2, none) =>
      let g1 := Packed.set g (y * 9 + x) f2
      if f2 ≠ f then
        f2.members.bind fun m =>
          if m.length = 1 then
            f2.members.bind fun m2 =>
              match m2 with
              | [] => .panic
              | d :: _ => (setField g1 x y d).bind fun r2 => .ret (r2.1, none)
          else .ret (g1, none)
      else .ret (g1, none)

/-- The combinator `seqErr` on packed grids. -/
def Packed.seqErr (a b : Nat → Packed.Result) (g : Nat) : Packed.Result :=
  (a g).bind fun r =>
    match r with
    | (g1, none) => b g1
    | (g1, some err) => .ret (g1, some err)

/-- The combinator `forErr` on packed grids. -/
def Packed.forErr {α : Type} (body : α → Nat → Packed.Result) : List α → Nat → Packed.Result
  | [], g => .ret (g, none)
  | a :: rest, g => Packed.seqErr (body a) (Packed.forErr body rest) g

/-- The two loops of `Sudoku.SetField` on packed grids. -/
def Packed.peerLoops (remove : Nat → Nat → Nat → Nat → Packed.Result) (x y num : Nat) :
    Nat → Packed.Result :=
  Packed.seqErr
    (Packed.forErr (fun i =>
      Packed.seqErr
        (fun t => if i ≠ y then remove t x i num else .ret (t, none))
        (fun t => if i ≠ x then remove t i y num else .ret (t, none)))
      (List.range 9))
    (Packed.forErr (fun xx =>
      Packed.forErr (fun yy t =>
        if xx ≠ x ∧ yy ≠ y then remove t xx yy num else .ret (t, none))
        (List.range' (y / 3 * 3) 3))
      (List.range' (x / 3 * 3) 3))

/-- The method `Sudoku.SetField` on packed grids, with the nesting bound. -/
def Packed.SetFieldN : Nat → Nat → Nat → Nat → Nat → Packed.Result
  | 0, _, _, _, _ => .nofuel
  | fuel + 1, g, x, y, num =>
    (Packed.index g (y * 9 + x)).bind fun f =>
    (f.has num).bind fun h =>
      if !h then .ret (g, some (.set x y f num))
      else
        (Field.add 0 num).bind fun v =>
          Packed.peerLoops (Packed.removeWith (Packed.SetFieldN fuel)) x y num
            (Packed.set g (y * 9 + x) v)

/-- The method `Sudoku.SetField` on packed grids of 81 cells. -/
def Packed.SetField (g x y num : Nat) : Packed.Result :=
  Packed.SetFieldN (9 * 81 + 1) g x y num

/-- The inner loop of `solve` on packed grids. -/
def Packed.tryChoices (recur : Nat → Nat → Packed.Result) (g i : Nat) :
    List Nat → Option Error → Packed.Result
  | [], lastErr => .ret (g, some (Error.ofLast (i % 9) (i / 9) lastErr))
  | num :: rest, lastErr =>
    (Packed.SetField g (i % 9) (i / 9) num).bind fun r =>
      match r with
      | (_, some _) => Packed.tryChoices recur g i rest lastErr
      | (g2, none) =>
        (recur g2 (i + 1)).bind fun r2 =>
          match r2 with
          | (res, none) => .ret (res, none)
          | (_, some err) => Packed.tryChoices recur g i rest (some err)

/-- The outer loop of `solve` on packed grids: `n` cells are left, from cell
`i` on. -/
def Packed.scan (recur : Nat → Nat → Packed.Result) (g : Nat) : Nat → Nat → Packed.Result
  | 0, _ => .ret (g, none)
  | n + 1, i =>
    (Field.members (Packed.get g i)).bind fun choices =>
      if choices.length > 1 then Packed.tryChoices recur g i choices none
      else Packed.scan recur g n (i + 1)

/-- The method `Sudoku.solve` on packed grids, with the depth bound. -/
def Packed.solveN : Nat → Nat → Nat → Packed.Result
  | 0, _, _ => .nofuel
  | fuel + 1, g, start =>
    if start > 81 then .panic
    else Packed.scan (Packed.solveN fuel) g (81 - start) start

/-- The method `Sudoku.Solve` on packed grids. -/
def Packed.Solve (g : Nat) : Packed.Result :=
  Packed.solveN 82 g 0

/-- The inner loop of `Parse` on packed grids. -/
def Packed.parseLine (y : Nat) : List Char → Nat → Nat → Packed.Result
  | [], _, g => .ret (g, none)
  | field :: rest, x, g =>
    if field.toNat = 95 then Packed.parseLine y rest (x + 1) g
    else if field.toNat < 48 ∨ field.toNat > 57 then Packed.parseLine y rest x g
    else
      (Packed.SetField g x y (field.toNat - 48)).bind fun r =>
        match r with
        | (g1, some err) => .ret (g1, some err)
        | (g1, none) => Packed.parseLine y rest (x + 1) g1

/-- The outer loop of `Parse` on packed grids. -/
def Packed.parseLines : List (List Char) → Nat → Nat → Packed.Result
  | [], _, g => .ret (g, none)
  | line :: rest, y, g =>
    if line.all isSpace then Packed.parseLines rest y g
    else
      (Packed.parseLine y line 0 g).bind fun r =>
        match r with
        | (g1, some err) => .ret (g1, some err)
        | (g1, none) => Packed.parseLines rest (y + 1) g1

/-- A sequence of `SetField` calls on a packed grid. -/
def Packed.SetFields : List (Nat × Nat × Nat) → Nat → Packed.Result
  | [], g => .ret (g, none)
  | (x, y, d) :: rest, g =>
    (Packed.SetField g x y d).bind fun r =>
      match r with
      | (g1, none) => Packed.SetFields rest g1
      | (g1, some err) => .ret (g1, some err)

/-- The outcome on grids that an outcome on packed grids stands for. -/
def Packed.lift (r : Packed.Result) : GoSudoku.Result :=
  r.bind fun p => .ret (Packed.unpack p.1, p.2)

/-- The statement `c` on grids does what `p` does on packed grids. -/
def Packed.Refines (c : Sudoku → GoSudoku.Result) (p : Nat → Packed.Result) : Prop :=
  ∀ g, c (Packed.unpack g) = Packed.lift (p g)

end GoSudoku

namespace GoSudoku

/-! ## Candidate sets: the functions in closed form -/

@[simp] theorem Run.ret_bind {α β : Type} (a : α) (k : α → Run β) :
    (Run.ret a).bind k = k a := rfl

theorem bit_eq {num : Nat} (h1 : 1 ≤ num) (h9 : num ≤ 9) : bit num = .ret (2 ^ (num - 1)) := by
  have h : (2 ^ 64 + num - 1) % 2 ^ 64 = num - 1 := by omega
  simp only [bit, h, Nat.one_shiftLeft]
  rw [if_neg (by omega)]

theorem and_two_pow_ne_zero (f k : Nat) : (f &&& 2 ^ k != 0) = f.testBit k := by
  rw [Nat.and_two_pow]
  cases f.testBit k <;> simp

theorem has_eq (f : Field) {num : Nat} (h1 : 1 ≤ num) (h9 : num ≤ 9) :
    f.has num = .ret (f.mem num) := by
  simp only [Field.has, bit_eq h1 h9, Run.ret_bind, and_two_pow_ne_zero, Field.mem]

theorem set_false_eq (f : Field) {num : Nat} (h1 : 1 ≤ num) (h9 : num ≤ 9) :
    f.set num false = .ret (f.clear num) := by
  simp [Field.set, bit_eq h1 h9, Run.ret_bind, Field.clear]

theorem add_zero_eq {num : Nat} (h1 : 1 ≤ num) (h9 : num ≤ 9) :
    Field.add 0 num = .ret (2 ^ (num - 1)) := by
  simp [Field.add, Field.set, bit_eq h1 h9, Run.ret_bind]

theorem testBit_clear (f : Field) {num : Nat} (h1 : 1 ≤ num) (h9 : num ≤ 9) (j : Nat) :
    (f.clear num).testBit j = (f.testBit j && decide (j < 64) && decide (j ≠ num - 1)) := by
  have hlt : 2 ^ (num - 1) < 2 ^ 64 := Nat.pow_lt_pow_right (by norm_num) (by omega)
  have h : 2 ^ 64 - 1 - 2 ^ (num - 1) = 2 ^ 64 - (2 ^ (num - 1) + 1) := by omega
  rw [Field.clear, Nat.testBit_and, h, Nat.testBit_two_pow_sub_succ hlt, Nat.testBit_two_pow]
  by_cases hj : j = num - 1
  · subst hj; simp
  · have : ¬ (num - 1 = j) := fun e => hj e.symm
    simp [hj, this]

theorem membersLoop_eq (f : Field) (l : List Nat) (hl : ∀ i ∈ l, 1 ≤ i ∧ i ≤ 9)
    (res : List Nat) :
    f.membersLoop l res = .ret (res ++ l.filter fun d => f.mem d) := by
  induction l generalizing res with
  | nil => simp [Field.membersLoop]
  | cons i rest ih =>
    have hi := hl i (List.mem_cons_self _ _)
    rw [Field.membersLoop, has_eq f hi.1 hi.2]
    simp only [Run.ret_bind]
    rw [ih (fun j hj => hl j (List.mem_cons_of_mem _ hj))]
    cases h : f.mem i <;> simp [List.filter_cons, h]

theorem members_eq (f : Field) : f.members = .ret f.digits := by
  rw [Field.members, membersLoop_eq f _ _ []]
  · rfl
  · intro i hi
    simp [List.mem_range'] at hi
    omega

theorem removeChecked_eq (f : Field) {num : Nat} (h1 : 1 ≤ num) (h9 : num ≤ 9) :
    f.removeChecked num =
      .ret (if f.clear num = 0 then (f, some (.removeChecked f num))
        else (f.clear num, none)) := by
  simp only [Field.removeChecked, set_false_eq f h1 h9, Run.ret_bind]
  split <;> rfl

theorem mem_digits {f : Field} {d : Nat} :
    d ∈ f.digits ↔ (1 ≤ d ∧ d ≤ 9) ∧ f.mem d = true := by
  simp only [Field.digits, List.mem_filter, List.mem_range']
  constructor
  · rintro ⟨⟨i, hi, rfl⟩, h⟩
    exact ⟨by omega, h⟩
  · rintro ⟨⟨h1, h9⟩, h⟩
    exact ⟨⟨d - 1, by omega, by omega⟩, h⟩

/-! ## Narrowing -/

theorem Field.Sub.self (f : Field) : Field.Sub f f :=
  ⟨fun _ h => h, fun h => h⟩

theorem Field.Sub.chain {a b c : Field} (h1 : Field.Sub a b) (h2 : Field.Sub b c) :
    Field.Sub a c :=
  ⟨fun k h => h2.1 k (h1.1 k h), fun h => h1.2 (h2.2 h)⟩

theorem Field.Sub.lt {g f : Field} (h : Field.Sub g f) (hf : f < 2 ^ 64) : g < 2 ^ 64 := by
  apply Nat.lt_pow_two_of_testBit
  intro i hi
  cases hg : g.testBit i with
  | false => rfl
  | true =>
    have h1 := h.1 i hg
    have h2 : f.testBit i = false :=
      Nat.testBit_lt_two_pow (lt_of_lt_of_le hf (Nat.pow_le_pow_right (by norm_num) hi))
    rw [h1] at h2
    exact h2

theorem Field.Sub.mem_false {g f : Field} (h : Field.Sub g f) {d : Nat}
    (hf : f.mem d = false) : g.mem d = false := by
  cases hg : g.mem d with
  | false => rfl
  | true =>
    have := h.1 (d - 1) hg
    rw [Field.mem] at hf
    rw [hf] at this
    exact this.symm

theorem Field.Sub.two_pow {g : Field} {k : Nat} (h : Field.Sub g (2 ^ k)) : g = 2 ^ k := by
  have hk : ∀ j, g.testBit j = true → k = j := by
    intro j hj
    have := h.1 j hj
    rw [Nat.testBit_two_pow] at this
    exact of_decide_eq_true this
  have hne : g ≠ 0 := h.2 (by positivity)
  obtain ⟨i, hi⟩ := Nat.ne_zero_implies_bit_true hne
  have hik := hk i hi
  subst hik
  apply Nat.eq_of_testBit_eq
  intro j
  rw [Nat.testBit_two_pow]
  by_cases hj : k = j
  · subst hj; simp [hi]
  · cases hg : g.testBit j with
    | false => simp [hj]
    | true => exact absurd (hk j hg) hj

theorem Field.Sub.two_pow_of_mem {f : Field} {d : Nat} (h : f.mem d = true) :
    Field.Sub (2 ^ (d - 1)) f := by
  refine ⟨fun k hk => ?_, fun _ => by positivity⟩
  rw [Nat.testBit_two_pow] at hk
  have := of_decide_eq_true hk
  subst this
  exact h

theorem Field.Sub.clear (f : Field) {num : Nat} (h1 : 1 ≤ num) (h9 : num ≤ 9)
    (hne : f.clear num ≠ 0) : Field.Sub (f.clear num) f := by
  refine ⟨fun k hk => ?_, fun _ => hne⟩
  rw [testBit_clear f h1 h9] at hk
  simp only [Bool.and_eq_true] at hk
  exact hk.1.1

theorem mem_clear_self (f : Field) {num : Nat} (h1 : 1 ≤ num) (h9 : num ≤ 9) :
    (f.clear num).mem num = false := by
  rw [Field.mem, testBit_clear f h1 h9]
  simp

theorem mem_clear_of_ne (f : Field) {num d : Nat} (h1 : 1 ≤ num) (h9 : num ≤ 9)
    (hd1 : 1 ≤ d) (hd9 : d ≤ 9) (hne : d ≠ num) : (f.clear num).mem d = f.mem d := by
  rw [Field.mem, testBit_clear f h1 h9]
  have h64 : d - 1 < 64 := by omega
  have hn : d - 1 ≠ num - 1 := by omega
  simp [h64, hn, Field.mem]

theorem clear_eq_self {f : Field} {num : Nat} (h1 : 1 ≤ num) (h9 : num ≤ 9)
    (hf : f < 2 ^ 64) (hm : f.mem num = false) : f.clear num = f := by
  apply Nat.eq_of_testBit_eq
  intro j
  rw [testBit_clear f h1 h9]
  cases hj : f.testBit j with
  | false => simp
  | true =>
    have h64 : j < 64 := by
      by_contra hge
      have : f.testBit j = false :=
        Nat.testBit_lt_two_pow (lt_of_lt_of_le hf (Nat.pow_le_pow_right (by norm_num) (by omega)))
      rw [hj] at this
      exact Bool.noConfusion this
    have hne : j ≠ num - 1 := by
      intro e
      subst e
      rw [Field.mem, hj] at hm
      exact Bool.noConfusion hm
    simp [h64, hne]

theorem toNat_le_of_imp {a b : Bool} (h : a = true → b = true) : a.toNat ≤ b.toNat := by
  cases a <;> cases b <;> simp_all

theorem Field.Sub.count_le {g f : Field} (h : Field.Sub g f) : g.count ≤ f.count := by
  have h0 := toNat_le_of_imp (h.1 0)
  have h1 := toNat_le_of_imp (h.1 1)
  have h2 := toNat_le_of_imp (h.1 2)
  have h3 := toNat_le_of_imp (h.1 3)
  have h4 := toNat_le_of_imp (h.1 4)
  have h5 := toNat_le_of_imp (h.1 5)
  have h6 := toNat_le_of_imp (h.1 6)
  have h7 := toNat_le_of_imp (h.1 7)
  have h8 := toNat_le_of_imp (h.1 8)
  unfold Field.count
  omega

theorem Field.Sub.count_lt {g f : Field} (h : Field.Sub g f) {d : Nat} (h1 : 1 ≤ d)
    (h9 : d ≤ 9) (hf : f.mem d = true) (hg : g.mem d = false) : g.count < f.count := by
  have h0 := toNat_le_of_imp (h.1 0)
  have h1 := toNat_le_of_imp (h.1 1)
  have h2 := toNat_le_of_imp (h.1 2)
  have h3 := toNat_le_of_imp (h.1 3)
  have h4 := toNat_le_of_imp (h.1 4)
  have h5 := toNat_le_of_imp (h.1 5)
  have h6 := toNat_le_of_imp (h.1 6)
  have h7 := toNat_le_of_imp (h.1 7)
  have h8 := toNat_le_of_imp (h.1 8)
  unfold Field.mem at hf hg
  have e1 : (f.testBit (d - 1)).toNat = 1 := by rw [hf]; rfl
  have e0 : (g.testBit (d - 1)).toNat = 0 := by rw [hg]; rfl
  unfold Field.count
  have hd : d = 1 ∨ d = 2 ∨ d = 3 ∨ d = 4 ∨ d = 5 ∨ d = 6 ∨ d = 7 ∨ d = 8 ∨ d = 9 := by omega
  rcases hd with rfl | rfl | rfl | rfl | rfl | rfl | rfl | rfl | rfl <;>
    simp only [Nat.reduceSub] at e0 e1 <;> omega

theorem count_le_nine (f : Field) : f.count ≤ 9 := by
  have h : ∀ b : Bool, b.toNat ≤ 1 := fun b => by cases b <;> simp
  have h0 := h (f.testBit 0)
  have h1 := h (f.testBit 1)
  have h2 := h (f.testBit 2)
  have h3 := h (f.testBit 3)
  have h4 := h (f.testBit 4)
  have h5 := h (f.testBit 5)
  have h6 := h (f.testBit 6)
  have h7 := h (f.testBit 7)
  have h8 := h (f.testBit 8)
  unfold Field.count
  omega

theorem Sudoku.Le.refl (s : Sudoku) : Sudoku.Le s s := by
  induction s with
  | nil => exact List.Forall₂.nil
  | cons f s ih => exact List.Forall₂.cons (Field.Sub.self f) ih

theorem Sudoku.Le.trans {a b c : Sudoku} (h1 : Sudoku.Le a b) (h2 : Sudoku.Le b c) :
    Sudoku.Le a c := by
  induction h1 generalizing c with
  | nil => cases h2; exact List.Forall₂.nil
  | cons hab _ ih =>
    cases h2 with
    | cons hbc h2 => exact List.Forall₂.cons (hab.chain hbc) (ih h2)

theorem Sudoku.Le.length_eq {t s : Sudoku} (h : Sudoku.Le t s) : t.length = s.length :=
  List.Forall₂.length_eq h

theorem Sudoku.Le.getElem? {t s : Sudoku} (h : Sudoku.Le t s) {i : Nat} {f : Field}
    (hf : s[i]? = some f) : ∃ g, t[i]? = some g ∧ Field.Sub g f := by
  induction h generalizing i with
  | nil => simp at hf
  | cons hab _ ih =>
    cases i with
    | zero =>
      simp only [List.getElem?_cons_zero, Option.some.injEq] at hf ⊢
      subst hf
      exact ⟨_, rfl, hab⟩
    | succ i =>
      simp only [List.getElem?_cons_succ] at hf ⊢
      exact ih hf

theorem Sudoku.Le.set (s : Sudoku) {i : Nat} {f v : Field} (hf : s[i]? = some f)
    (hv : Field.Sub v f) : Sudoku.Le (s.set i v) s := by
  induction s generalizing i with
  | nil => simp at hf
  | cons a s ih =>
    cases i with
    | zero =>
      simp only [List.getElem?_cons_zero, Option.some.injEq] at hf
      subst hf
      exact List.Forall₂.cons hv (Sudoku.Le.refl s)
    | succ i =>
      simp only [List.getElem?_cons_succ] at hf
      exact List.Forall₂.cons (Field.Sub.self a) (ih hf)

theorem Sudoku.Le.weight_le {t s : Sudoku} (h : Sudoku.Le t s) : t.weight ≤ s.weight := by
  induction h with
  | nil => exact Nat.le_refl _
  | cons hab _ ih =>
    simp only [Sudoku.weight, List.map_cons, List.sum_cons] at ih ⊢
    have := hab.count_le
    omega

theorem Sudoku.Le.lt_of_mem {t s : Sudoku} (h : Sudoku.Le t s)
    (hs : ∀ f ∈ s, f < 2 ^ 64) : ∀ g ∈ t, g < 2 ^ 64 := by
  induction h with
  | nil => intro g hg; simp at hg
  | cons hab _ ih =>
    intro g hg
    rcases List.mem_cons.1 hg with rfl | hg
    · exact hab.lt (hs _ (List.mem_cons_self _ _))
    · exact ih (fun f hf => hs f (List.mem_cons_of_mem _ hf)) g hg

theorem Sudoku.Good.of_le {n : Nat} {t s : Sudoku} (hs : s.Good n) (h : Sudoku.Le t s) :
    t.Good n :=
  ⟨h.length_eq.trans hs.1, h.lt_of_mem hs.2.1, le_trans h.weight_le hs.2.2⟩

theorem weight_set_lt (s : Sudoku) {i : Nat} {f v : Field} (hf : s[i]? = some f)
    (hv : v.count < f.count) : Sudoku.weight (s.set i v) < s.weight := by
  induction s generalizing i with
  | nil => simp at hf
  | cons a s ih =>
    cases i with
    | zero =>
      simp only [List.getElem?_cons_zero, Option.some.injEq] at hf
      subst hf
      simp only [Sudoku.weight, List.set_cons_zero, List.map_cons, List.sum_cons]
      omega
    | succ i =>
      simp only [List.getElem?_cons_succ] at hf
      have := ih hf
      simp only [Sudoku.weight, List.set_cons_succ, List.map_cons, List.sum_cons] at this ⊢
      omega

theorem weight_le_bound (s : Sudoku) : s.weight ≤ 9 * s.length := by
  induction s with
  | nil => simp [Sudoku.weight]
  | cons a s ih =>
    have := count_le_nine a
    simp only [Sudoku.weight, List.map_cons, List.sum_cons, List.length_cons] at ih ⊢
    omega

theorem Sudoku.Lacks.closed (x y num : Nat) : Closed fun s => Sudoku.Lacks s x y num := by
  intro s t ⟨g, hg, hm⟩ hle
  obtain ⟨g1, hg1, hsub⟩ := hle.getElem? hg
  exact ⟨g1, hg1, hsub.mem_false hm⟩

/-! ## Rules for statements that narrow the grid -/

theorem Closed.and {P Q : Sudoku → Prop} (hp : Closed P) (hq : Closed Q) :
    Closed fun t => P t ∧ Q t :=
  fun s t h hle => ⟨hp s t h.1 hle, hq s t h.2 hle⟩

theorem Closed.imp (p : Prop) {Q : Sudoku → Prop} (hq : Closed Q) :
    Closed fun t => p → Q t :=
  fun s t h hle hp => hq s t (h hp) hle

theorem Closed.all {α : Type} {Qs : α → Sudoku → Prop} (xs : List α)
    (h : ∀ a, Closed (Qs a)) : Closed fun t => ∀ a ∈ xs, Qs a t :=
  fun s t hs hle a ha => h a s t (hs a ha) hle

theorem Sound.skip (n : Nat) : Sound n (fun t => .ret (t, none)) fun _ => True :=
  fun s _ => ⟨s, none, rfl, Sudoku.Le.refl s, fun _ => trivial⟩

theorem Sound.mono {n : Nat} {c : Sudoku → Result} {Q Q1 : Sudoku → Prop}
    (h : Sound n c Q) (hq : ∀ t, Q t → Q1 t) : Sound n c Q1 := by
  intro s hs
  obtain ⟨t, e, ht, hle, hQ⟩ := h s hs
  exact ⟨t, e, ht, hle, fun he => hq t (hQ he)⟩

theorem Sound.seq {n : Nat} {a b : Sudoku → Result} {Qa Qb : Sudoku → Prop}
    (ha : Sound n a Qa) (hb : Sound n b Qb) (hc : Closed Qa) :
    Sound n (seqErr a b) fun t => Qa t ∧ Qb t := by
  intro s hs
  obtain ⟨t1, e1, ht1, hle1, hQ1⟩ := ha s hs
  cases e1 with
  | some err =>
    refine ⟨t1, some err, ?_, hle1, fun he => by cases he⟩
    simp only [seqErr, ht1, Run.ret_bind]
  | none =>
    obtain ⟨t2, e2, ht2, hle2, hQ2⟩ := hb t1 (hs.of_le hle1)
    refine ⟨t2, e2, ?_, hle2.trans hle1, fun he => ⟨hc t1 t2 (hQ1 rfl) hle2, hQ2 he⟩⟩
    simp only [seqErr, ht1, Run.ret_bind, ht2]

theorem Sound.loop {α : Type} {n : Nat} {body : α → Sudoku → Result}
    {Qs : α → Sudoku → Prop} (hc : ∀ a, Closed (Qs a)) (xs : List α)
    (h : ∀ a ∈ xs, Sound n (body a) (Qs a)) :
    Sound n (forErr body xs) fun t => ∀ a ∈ xs, Qs a t := by
  induction xs with
  | nil =>
    intro s _
    exact ⟨s, none, rfl, Sudoku.Le.refl s, fun _ a ha => by simp at ha⟩
  | cons a rest ih =>
    have h1 := h a (List.mem_cons_self _ _)
    have h2 := ih fun b hb => h b (List.mem_cons_of_mem _ hb)
    refine (Sound.seq h1 h2 (hc a)).mono ?_
    intro t ⟨hq1, hq2⟩ b hb
    rcases List.mem_cons.1 hb with rfl | hb
    · exact hq1
    · exact hq2 b hb

theorem Sound.ite {n : Nat} (p : Prop) [Decidable p] {c : Sudoku → Result}
    {Q : Sudoku → Prop} (h : p → Sound n c Q) :
    Sound n (fun t => if p then c t else .ret (t, none)) fun t => p → Q t := by
  by_cases hp : p
  · simp only [if_pos hp]
    exact (h hp).mono fun t hq _ => hq
  · simp only [if_neg hp]
    exact (Sound.skip n).mono fun t _ hp1 => absurd hp1 hp

theorem Sound.removeWith {n : Nat} {setField : Sudoku → Nat → Nat → Nat → Result}
    (hset : ∀ m, m < n → ∀ x y d, x < 9 → y < 9 → 1 ≤ d → d ≤ 9 →
      Sound m (fun t => setField t x y d) fun _ => True)
    {x y num : Nat} (hx : x < 9) (hy : y < 9) (h1 : 1 ≤ num) (h9 : num ≤ 9) :
    Sound n (fun t => Sudoku.removeWith setField t x y num)
      fun t => Sudoku.Lacks t x y num := by
  intro s hs
  have hlen : y * 9 + x < s.length := by rw [hs.1]; omega
  have hf : s[y * 9 + x]? = some s[y * 9 + x] := List.getElem?_eq_getElem hlen
  generalize s[y * 9 + x] = f at hf
  have hf64 : f < 2 ^ 64 := hs.2.1 f (List.getElem?_mem hf)
  have hget : ∀ v : Field, (s.set (y * 9 + x) v)[y * 9 + x]? = some v :=
    fun v => List.getElem?_set_self hlen
  simp only [Sudoku.removeWith, Sudoku.index, Sudoku.coord, hf, Run.ret_bind,
    removeChecked_eq f h1 h9]
  by_cases hz : f.clear num = 0
  · rw [if_pos hz]
    exact ⟨s, _, rfl, Sudoku.Le.refl s, fun he => by cases he⟩
  · rw [if_neg hz]
    have hsub := Field.Sub.clear f h1 h9 hz
    have hle1 : Sudoku.Le (s.set (y * 9 + x) (f.clear num)) s := Sudoku.Le.set s hf hsub
    have hlacks : Sudoku.Lacks (s.set (y * 9 + x) (f.clear num)) x y num :=
      ⟨_, hget _, mem_clear_self f h1 h9⟩
    by_cases he : f.clear num = f
    · simp only [ne_eq, he, not_true_eq_false, if_false]
      rw [he] at hle1 hlacks
      exact ⟨_, none, rfl, hle1, fun _ => hlacks⟩
    · simp only [ne_eq, he, not_false_eq_true, if_true, members_eq, Run.ret_bind]
      by_cases hl : (f.clear num).digits.length = 1
      · rw [if_pos hl]
        obtain ⟨d, hd⟩ := List.length_eq_one.1 hl
        have hdmem : d ∈ (f.clear num).digits := by rw [hd]; simp
        obtain ⟨⟨hd1, hd9⟩, _⟩ := mem_digits.1 hdmem
        have hfm : f.mem num = true := by
          cases hm : f.mem num with
          | true => rfl
          | false => exact absurd (clear_eq_self h1 h9 hf64 hm) he
        have hw := weight_set_lt s hf (hsub.count_lt h1 h9 hfm (mem_clear_self f h1 h9))
        have hn : 0 < n := by have := hs.2.2; omega
        have hgood1 : Sudoku.Good (n - 1) (s.set (y * 9 + x) (f.clear num)) :=
          ⟨by rw [List.length_set]; exact hs.1, hle1.lt_of_mem hs.2.1, by
            have := hs.2.2; omega⟩
        obtain ⟨t, e, ht, hle, _⟩ := hset (n - 1) (by omega) x y d hx hy hd1 hd9 _ hgood1
        rw [hd]
        simp only [ht, Run.ret_bind]
        exact ⟨t, none, rfl, hle.trans hle1, fun _ =>
          Sudoku.Lacks.closed x y num _ _ hlacks hle⟩
      · rw [if_neg hl]
        exact ⟨_, none, rfl, hle1, fun _ => hlacks⟩

theorem Sound.peerLoops {n : Nat} {remove : Sudoku → Nat → Nat → Nat → Result} {num : Nat}
    (hrm : ∀ x y, x < 9 → y < 9 →
      Sound n (fun t => remove t x y num) fun t => Sudoku.Lacks t x y num)
    {x y : Nat} (hx : x < 9) (hy : y < 9) :
    Sound n (Sudoku.peerLoops remove x y num) fun t =>
      ∀ x1 y1, x1 < 9 → y1 < 9 → Peers x y x1 y1 → Sudoku.Lacks t x1 y1 num := by
  have hloop1 : Sound n
      (forErr (fun i => seqErr
        (fun t => if i ≠ y then remove t x i num else .ret (t, none))
        (fun t => if i ≠ x then remove t i y num else .ret (t, none))) (List.range 9))
      (fun t => ∀ i ∈ List.range 9,
        (i ≠ y → Sudoku.Lacks t x i num) ∧ (i ≠ x → Sudoku.Lacks t i y num)) :=
    Sound.loop
      (fun i => (Closed.imp _ (Sudoku.Lacks.closed _ _ _)).and
        (Closed.imp _ (Sudoku.Lacks.closed _ _ _)))
      (List.range 9)
      (fun i hi => by
        have hi9 : i < 9 := List.mem_range.1 hi
        exact Sound.seq (Sound.ite (i ≠ y) fun _ => hrm x i hx hi9)
          (Sound.ite (i ≠ x) fun _ => hrm i y hi9 hy)
          (Closed.imp _ (Sudoku.Lacks.closed _ _ _)))
  have hinner : ∀ xx ∈ List.range' (x / 3 * 3) 3, Sound n
      (forErr (fun yy t =>
        if xx ≠ x ∧ yy ≠ y then remove t xx yy num else .ret (t, none))
        (List.range' (y / 3 * 3) 3))
      (fun t => ∀ yy ∈ List.range' (y / 3 * 3) 3,
        xx ≠ x ∧ yy ≠ y → Sudoku.Lacks t xx yy num) := by
    intro xx hxx
    have hxx9 : xx < 9 := by
      simp only [List.mem_range'_1] at hxx
      omega
    refine Sound.loop (fun yy => Closed.imp _ (Sudoku.Lacks.closed _ _ _)) _ fun yy hyy => ?_
    have hyy9 : yy < 9 := by
      simp only [List.mem_range'_1] at hyy
      omega
    exact Sound.ite (xx ≠ x ∧ yy ≠ y) fun _ => hrm xx yy hxx9 hyy9
  have hloop2 : Sound n
      (forErr (fun xx => forErr (fun yy t =>
        if xx ≠ x ∧ yy ≠ y then remove t xx yy num else .ret (t, none))
        (List.range' (y / 3 * 3) 3)) (List.range' (x / 3 * 3) 3))
      (fun t => ∀ xx ∈ List.range' (x / 3 * 3) 3, ∀ yy ∈ List.range' (y / 3 * 3) 3,
        xx ≠ x ∧ yy ≠ y → Sudoku.Lacks t xx yy num) :=
    Sound.loop (fun xx => Closed.all _ fun yy => Closed.imp _ (Sudoku.Lacks.closed _ _ _))
      (List.range' (x / 3 * 3) 3) hinner
  refine (Sound.seq hloop1 hloop2 (Closed.all _ fun i =>
    (Closed.imp _ (Sudoku.Lacks.closed _ _ _)).and
      (Closed.imp _ (Sudoku.Lacks.closed _ _ _)))).mono ?_
  intro t ⟨hq1, hq2⟩ x1 y1 hx1 hy1 hp
  by_cases hxe : x1 = x
  · subst hxe
    have hyne : y1 ≠ y := fun e => hp.1 (by rw [e])
    exact (hq1 y1 (List.mem_range.2 hy1)).1 hyne
  · by_cases hye : y1 = y
    · subst hye
      exact (hq1 x1 (List.mem_range.2 hx1)).2 hxe
    · have hbox : x1 / 3 = x / 3 ∧ y1 / 3 = y / 3 := by
        rcases hp.2 with h | h | h
        · exact absurd h hxe
        · exact absurd h hye
        · exact h
      refine hq2 x1 ?_ y1 ?_ ⟨hxe, hye⟩
      · simp only [List.mem_range'_1]; omega
      · simp only [List.mem_range'_1]; omega

theorem Sound.SetFieldN_succ {n fuel : Nat}
    (hset : ∀ m, m < n → ∀ x y d, x < 9 → y < 9 → 1 ≤ d → d ≤ 9 →
      Sound m (fun t => Sudoku.SetFieldN fuel t x y d) fun _ => True)
    {x y num : Nat} (hx : x < 9) (hy : y < 9) (h1 : 1 ≤ num) (h9 : num ≤ 9) :
    Sound n (fun t => Sudoku.SetFieldN (fuel + 1) t x y num)
      fun t => Sudoku.Assigned t x y num := by
  intro s hs
  have hlen : y * 9 + x < s.length := by rw [hs.1]; omega
  have hf : s[y * 9 + x]? = some s[y * 9 + x] := List.getElem?_eq_getElem hlen
  generalize s[y * 9 + x] = f at hf
  unfold Sudoku.SetFieldN
  simp only [Sudoku.index, Sudoku.coord, hf, Run.ret_bind, has_eq f h1 h9]
  cases hm : f.mem num with
  | false =>
    simp only [Bool.not_false, if_true]
    exact ⟨s, _, rfl, Sudoku.Le.refl s, fun he => by cases he⟩
  | true =>
    simp only [Bool.not_true, Bool.false_eq_true, if_false, add_zero_eq h1 h9, Run.ret_bind]
    have hle1 : Sudoku.Le (s.set (y * 9 + x) (2 ^ (num - 1))) s :=
      Sudoku.Le.set s hf (Field.Sub.two_pow_of_mem hm)
    have hloops : Sound n
        (Sudoku.peerLoops (Sudoku.removeWith (Sudoku.SetFieldN fuel)) x y num) _ :=
      Sound.peerLoops (fun x y hx hy => Sound.removeWith hset hx hy h1 h9) hx hy
    obtain ⟨t, e, ht, hle, hq⟩ := hloops _ (hs.of_le hle1)
    refine ⟨t, e, ht, hle.trans hle1, fun he => ⟨?_, hq he⟩⟩
    obtain ⟨g, hg, hsub⟩ := hle.getElem? (List.getElem?_set_self hlen (a := 2 ^ (num - 1)))
    rw [hg, hsub.two_pow]

theorem Sound.SetFieldN (fuel : Nat) : ∀ n, n ≤ fuel → ∀ x y num, x < 9 → y < 9 →
    1 ≤ num → num ≤ 9 →
    Sound n (fun t => Sudoku.SetFieldN (fuel + 1) t x y num)
      fun t => Sudoku.Assigned t x y num := by
  induction fuel with
  | zero =>
    intro n hn x y num hx hy h1 h9
    exact Sound.SetFieldN_succ (fun m hm => by omega) hx hy h1 h9
  | succ fuel ih =>
    intro n hn x y num hx hy h1 h9
    refine Sound.SetFieldN_succ (fun m hm x y d hx hy hd1 hd9 => ?_) hx hy h1 h9
    exact (ih m (by omega) x y d hx hy hd1 hd9).mono fun _ _ => trivial

theorem Sudoku.WF.good {s : Sudoku} (h : s.WF) : s.Good (9 * s.length) :=
  ⟨h.1, h.2, weight_le_bound s⟩

theorem Sudoku.WF.narrow {t s : Sudoku} (hs : s.WF) (h : Sudoku.Le t s) : t.WF :=
  ⟨h.length_eq.trans hs.1, h.lt_of_mem hs.2⟩

/-- `SetField` on a grid of 81 cells returns, narrows the grid, and on
success leaves the cell assigned and the peers without the digit. -/
theorem SetField_sound {s : Sudoku} (hs : s.WF) {x y num : Nat} (hx : x < 9) (hy : y < 9)
    (h1 : 1 ≤ num) (h9 : num ≤ 9) :
    ∃ t e, s.SetField x y num = .ret (t, e) ∧ t.Le s ∧ (e = none → t.Assigned x y num) :=
  Sound.SetFieldN (9 * s.length) (9 * s.length) (Nat.le_refl _) x y num hx hy h1 h9 s hs.good

/-! ## Rules for statements that keep a solution possible -/

theorem ret_of_bind_eq_ret {α β : Type} {r : Run α} {k : α → Run β} {b : β}
    (h : r.bind k = .ret b) : ∃ a, r = .ret a ∧ k a = .ret b := by
  cases r with
  | ret a => exact ⟨a, rfl, h⟩
  | fatal => cases h
  | panic => cases h
  | nofuel => cases h

theorem Keeps.skip_keeps (I : Sudoku → Prop) : Keeps I fun t => .ret (t, none) := by
  intro s t e hI h
  cases h
  exact ⟨rfl, hI⟩

theorem Keeps.seq_keeps {I : Sudoku → Prop} {a b : Sudoku → Result} (ha : Keeps I a)
    (hb : Keeps I b) : Keeps I (seqErr a b) := by
  intro s t e hI h
  obtain ⟨⟨t1, e1⟩, h1, h2⟩ := ret_of_bind_eq_ret h
  obtain ⟨he1, hI1⟩ := ha s t1 e1 hI h1
  subst he1
  exact hb t1 t e hI1 h2

theorem Keeps.loop_keeps {α : Type} {I : Sudoku → Prop} {body : α → Sudoku → Result}
    (xs : List α) (h : ∀ a ∈ xs, Keeps I (body a)) : Keeps I (forErr body xs) := by
  induction xs with
  | nil => exact Keeps.skip_keeps I
  | cons a rest ih =>
    exact Keeps.seq_keeps (h a (List.mem_cons_self _ _))
      (ih fun b hb => h b (List.mem_cons_of_mem _ hb))

theorem Keeps.ite_keeps {I : Sudoku → Prop} (p : Prop) [Decidable p] {c : Sudoku → Result}
    (h : p → Keeps I c) : Keeps I fun t => if p then c t else .ret (t, none) := by
  by_cases hp : p
  · simp only [if_pos hp]
    exact h hp
  · simp only [if_neg hp]
    exact Keeps.skip_keeps I

theorem Keeps.peerLoops_keeps {I : Sudoku → Prop} {remove : Sudoku → Nat → Nat → Nat → Result}
    {x y num : Nat} (hx : x < 9) (hy : y < 9)
    (hrm : ∀ x1 y1, x1 < 9 → y1 < 9 → Peers x y x1 y1 → Keeps I fun t => remove t x1 y1 num) :
    Keeps I (Sudoku.peerLoops remove x y num) := by
  refine Keeps.seq_keeps (Keeps.loop_keeps _ fun i hi => ?_) (Keeps.loop_keeps _ fun xx hxx =>
    Keeps.loop_keeps _ fun yy hyy => ?_)
  · have hi9 : i < 9 := List.mem_range.1 hi
    refine Keeps.seq_keeps (Keeps.ite_keeps _ fun hne => hrm x i hx hi9 ⟨?_, Or.inl rfl⟩)
      (Keeps.ite_keeps _ fun hne => hrm i y hi9 hy ⟨?_, Or.inr (Or.inl rfl)⟩)
    · intro e; exact hne (Prod.mk.inj e).2
    · intro e; exact hne (Prod.mk.inj e).1
  · simp only [List.mem_range'_1] at hxx hyy
    refine Keeps.ite_keeps _ fun hne => hrm xx yy (by omega) (by omega) ⟨?_, Or.inr (Or.inr ?_)⟩
    · intro e; exact hne.1 (Prod.mk.inj e).1
    · constructor <;> omega

theorem Compat.update {sol : Nat → Nat → Nat} {s : Sudoku} (h : Compat sol s) {x y : Nat}
    (hx : x < 9) (hy : y < 9) {v : Field} (hv : sol x y ∈ v.digits) :
    Compat sol (s.set (y * 9 + x) v) := by
  intro x1 y1 hx1 hy1
  obtain ⟨f, hf, hm⟩ := h x1 y1 hx1 hy1
  by_cases hc : y * 9 + x = y1 * 9 + x1
  · have hxe : x1 = x := by omega
    have hye : y1 = y := by omega
    subst hxe hye
    have hlen : y1 * 9 + x1 < s.length := (List.getElem?_eq_some.1 hf).1
    exact ⟨v, List.getElem?_set_self hlen, hv⟩
  · exact ⟨f, by rw [List.getElem?_set_ne hc]; exact hf, hm⟩

theorem Keeps.removeWith_keeps {sol : Nat → Nat → Nat}
    {setField : Sudoku → Nat → Nat → Nat → Result} {x y num : Nat} (hx : x < 9) (hy : y < 9)
    (h1 : 1 ≤ num) (h9 : num ≤ 9) (hne : sol x y ≠ num)
    (hset : Keeps (Compat sol) fun t => setField t x y (sol x y)) :
    Keeps (Compat sol) fun t => Sudoku.removeWith setField t x y num := by
  intro s t e hI h
  obtain ⟨f, hf, hm⟩ := hI x y hx hy
  obtain ⟨⟨hs1, hs9⟩, hmem⟩ := mem_digits.1 hm
  have hkeep : (f.clear num).mem (sol x y) = true := by
    rw [mem_clear_of_ne f h1 h9 hs1 hs9 hne]; exact hmem
  have hz : f.clear num ≠ 0 := by
    intro e0
    rw [e0, Field.mem, Nat.zero_testBit] at hkeep
    exact Bool.noConfusion hkeep
  have hm2 : sol x y ∈ (f.clear num).digits := mem_digits.2 ⟨⟨hs1, hs9⟩, hkeep⟩
  have hI1 : Compat sol (s.set (y * 9 + x) (f.clear num)) := hI.update hx hy hm2
  simp only [Sudoku.removeWith, Sudoku.index, Sudoku.coord, hf, Run.ret_bind,
    removeChecked_eq f h1 h9, if_neg hz] at h
  by_cases he : f.clear num = f
  · simp only [ne_eq, he, not_true_eq_false, if_false] at h
    cases h
    rw [he] at hI1
    exact ⟨rfl, hI1⟩
  · simp only [ne_eq, he, not_false_eq_true, if_true, members_eq, Run.ret_bind] at h
    by_cases hl : (f.clear num).digits.length = 1
    · rw [if_pos hl] at h
      obtain ⟨d, hd⟩ := List.length_eq_one.1 hl
      have hsd : sol x y = d := by
        rw [hd] at hm2
        exact List.mem_singleton.1 hm2
      rw [hd] at h
      simp only [] at h
      obtain ⟨⟨t2, e2⟩, h2, h3⟩ := ret_of_bind_eq_ret h
      cases h3
      rw [← hsd] at h2
      exact ⟨rfl, (hset _ _ _ hI1 h2).2⟩
    · rw [if_neg hl] at h
      cases h
      exact ⟨rfl, hI1⟩

theorem two_pow_mem_self {d : Nat} : (2 ^ (d - 1) : Field).mem d = true := by
  rw [Field.mem, Nat.testBit_two_pow_self]

theorem Keeps.SetFieldN_keeps {sol : Nat → Nat → Nat}
    (hpeer : ∀ x y x1 y1, x < 9 → y < 9 → x1 < 9 → y1 < 9 → Peers x y x1 y1 →
      sol x1 y1 ≠ sol x y) (fuel : Nat) :
    ∀ x y, x < 9 → y < 9 →
      Keeps (Compat sol) fun t => Sudoku.SetFieldN fuel t x y (sol x y) := by
  induction fuel with
  | zero =>
    intro x y _ _ s t e _ h
    cases h
  | succ fuel ih =>
    intro x y hx hy s t e hI h
    obtain ⟨f, hf, hm⟩ := hI x y hx hy
    obtain ⟨⟨hs1, hs9⟩, hmem⟩ := mem_digits.1 hm
    unfold Sudoku.SetFieldN at h
    simp only [Sudoku.index, Sudoku.coord, hf, Run.ret_bind, has_eq f hs1 hs9, hmem,
      Bool.not_true, Bool.false_eq_true, if_false, add_zero_eq hs1 hs9] at h
    have hI1 : Compat sol (s.set (y * 9 + x) (2 ^ (sol x y - 1))) :=
      hI.update hx hy (mem_digits.2 ⟨⟨hs1, hs9⟩, two_pow_mem_self⟩)
    refine Keeps.peerLoops_keeps (I := Compat sol) hx hy (fun x1 y1 hx1 hy1 hp => ?_) _ t e hI1 h
    exact Keeps.removeWith_keeps hx1 hy1 hs1 hs9 (hpeer x y x1 y1 hx hy hx1 hy1 hp) (ih x1 y1 hx1 hy1)

/-! ## Units -/

theorem mem_rowCells {x y : Nat} (hx : x < 9) : (x, y) ∈ rowCells y :=
  List.mem_map.2 ⟨x, List.mem_range.2 hx, rfl⟩

theorem mem_colCells {x y : Nat} (hy : y < 9) : (x, y) ∈ colCells x :=
  List.mem_map.2 ⟨y, List.mem_range.2 hy, rfl⟩

theorem mem_boxCells {x y : Nat} (hx : x < 9) :
    (x, y) ∈ boxCells (y / 3 * 3 + x / 3) := by
  refine List.mem_map.2 ⟨y % 3 * 3 + x % 3, List.mem_range.2 (by omega), ?_⟩
  refine Prod.ext ?_ ?_ <;> simp only <;> omega

theorem rowCells_mem_units {y : Nat} (hy : y < 9) : rowCells y ∈ units := by
  unfold units
  exact List.mem_append_left _ (List.mem_append_left _
    (List.mem_map.2 ⟨y, List.mem_range.2 hy, rfl⟩))

theorem colCells_mem_units {x : Nat} (hx : x < 9) : colCells x ∈ units := by
  unfold units
  exact List.mem_append_left _ (List.mem_append_right _
    (List.mem_map.2 ⟨x, List.mem_range.2 hx, rfl⟩))

theorem boxCells_mem_units {b : Nat} (hb : b < 9) : boxCells b ∈ units := by
  unfold units
  exact List.mem_append_right _ (List.mem_map.2 ⟨b, List.mem_range.2 hb, rfl⟩)

theorem exists_unit_of_peers {x y x1 y1 : Nat} (hx : x < 9) (hy : y < 9) (hx1 : x1 < 9)
    (hy1 : y1 < 9) (hp : Peers x y x1 y1) :
    ∃ u ∈ units, (x, y) ∈ u ∧ (x1, y1) ∈ u := by
  rcases hp.2 with h | h | h
  · subst h
    exact ⟨colCells x1, colCells_mem_units hx1, mem_colCells hy, mem_colCells hy1⟩
  · subst h
    exact ⟨rowCells y1, rowCells_mem_units hy1, mem_rowCells hx, mem_rowCells hx1⟩
  · refine ⟨boxCells (y / 3 * 3 + x / 3), boxCells_mem_units (by omega), mem_boxCells hx, ?_⟩
    have := mem_boxCells (y := y1) hx1
    rw [h.1, h.2] at this
    exact this

theorem Complete.peerFree {sol : Nat → Nat → Nat} (h : Complete sol)
    (hr : ∀ x y, x < 9 → y < 9 → 1 ≤ sol x y ∧ sol x y ≤ 9) : PeerFree sol := by
  intro x y x1 y1 hx hy hx1 hy1 hp heq
  obtain ⟨u, hu, hm, hm1⟩ := exists_unit_of_peers hx hy hx1 hy1 hp
  have hd : sol x y ∈ List.range' 1 9 := by
    have := hr x y hx hy
    simp only [List.mem_range'_1]
    omega
  obtain ⟨a, ha⟩ := List.length_eq_one.1 (h u hu (sol x y) hd)
  have h1 : (x, y) ∈ u.filter fun c => sol c.1 c.2 = sol x y :=
    List.mem_filter.2 ⟨hm, by simp⟩
  have h2 : (x1, y1) ∈ u.filter fun c => sol c.1 c.2 = sol x y :=
    List.mem_filter.2 ⟨hm1, by simp [heq]⟩
  rw [ha] at h1 h2
  have e1 := List.mem_singleton.1 h1
  have e2 := List.mem_singleton.1 h2
  exact hp.1 (e2.trans e1.symm)

/-! ## The search -/

theorem tryChoices_spec {recur : Sudoku → Nat → Result} {s : Sudoku} (hs : s.WF) {i : Nat}
    (hi : i < 81)
    (hrec : ∀ s2 : Sudoku, s2.WF → s2.Le s → ∃ t e, recur s2 (i + 1) = .ret (t, e) ∧ t.Le s2 ∧
      ∀ sol, PeerFree sol → Compat sol s2 → e = none) :
    ∀ choices : List Nat, (∀ d ∈ choices, 1 ≤ d ∧ d ≤ 9) → ∀ lastErr,
      ∃ t e, Sudoku.tryChoices recur s i choices lastErr = .ret (t, e) ∧ t.Le s ∧
        ∀ sol, PeerFree sol → Compat sol s → sol (i % 9) (i / 9) ∈ choices → e = none := by
  intro choices
  induction choices with
  | nil =>
    intro _ lastErr
    exact ⟨s, _, rfl, Sudoku.Le.refl s, fun sol _ _ h => by simp at h⟩
  | cons num rest ih =>
    intro hc lastErr
    have hnum := hc num (List.mem_cons_self _ _)
    have hrest : ∀ d ∈ rest, 1 ≤ d ∧ d ≤ 9 := fun d hd => hc d (List.mem_cons_of_mem _ hd)
    have hx : i % 9 < 9 := by omega
    have hy : i / 9 < 9 := by omega
    obtain ⟨s2, e1, h1, hle1, _⟩ := SetField_sound hs hx hy hnum.1 hnum.2
    have hkeep : ∀ sol, PeerFree sol → Compat sol s → sol (i % 9) (i / 9) = num →
        e1 = none ∧ Compat sol s2 := by
      intro sol hpf hI hsn
      have := Keeps.SetFieldN_keeps hpf (9 * s.length + 1) (i % 9) (i / 9) hx hy s s2 e1 hI
      rw [hsn] at this
      exact this h1
    unfold Sudoku.tryChoices
    rw [h1, Run.ret_bind]
    cases e1 with
    | some err =>
      obtain ⟨t, e, ht, hle, hq⟩ := ih hrest lastErr
      refine ⟨t, e, ht, hle, fun sol hpf hI hm => ?_⟩
      rcases List.mem_cons.1 hm with hm | hm
      · exact absurd (hkeep sol hpf hI hm).1 (by simp)
      · exact hq sol hpf hI hm
    | none =>
      obtain ⟨t2, e2, h2, hle2, hq2⟩ := hrec s2 (hs.narrow hle1) hle1
      simp only [h2, Run.ret_bind]
      cases e2 with
      | none => exact ⟨t2, none, rfl, hle2.trans hle1, fun _ _ _ _ => rfl⟩
      | some err =>
        obtain ⟨t, e, ht, hle, hq⟩ := ih hrest (some err)
        refine ⟨t, e, ht, hle, fun sol hpf hI hm => ?_⟩
        rcases List.mem_cons.1 hm with hm | hm
        · exact absurd (hq2 sol hpf (hkeep sol hpf hI hm).2) (by simp)
        · exact hq sol hpf hI hm

theorem scan_spec {recur : Sudoku → Nat → Result} {s : Sudoku} (hs : s.WF) {start : Nat}
    (hrec : ∀ i, start ≤ i → i < 81 → ∀ s2 : Sudoku, s2.WF → s2.Le s →
      ∃ t e, recur s2 (i + 1) = .ret (t, e) ∧ t.Le s2 ∧
        ∀ sol, PeerFree sol → Compat sol s2 → e = none) :
    ∀ (vs : List Field) (i : Nat), s.drop i = vs → start ≤ i →
      ∃ t e, Sudoku.scan recur s vs i = .ret (t, e) ∧ t.Le s ∧
        ∀ sol, PeerFree sol → Compat sol s → e = none := by
  intro vs
  induction vs with
  | nil =>
    intro i _ _
    exact ⟨s, none, rfl, Sudoku.Le.refl s, fun _ _ _ => rfl⟩
  | cons v vs ih =>
    intro i hdrop hsi
    have hi : i < s.length := by
      by_contra hge
      rw [List.drop_eq_nil_of_le (by omega)] at hdrop
      cases hdrop
    rw [List.drop_eq_getElem_cons hi] at hdrop
    have hv : s[i] = v := (List.cons.inj hdrop).1
    have hvs : s.drop (i + 1) = vs := (List.cons.inj hdrop).2
    have hi81 : i < 81 := by rw [← hs.1]; exact hi
    unfold Sudoku.scan
    rw [members_eq, Run.ret_bind]
    by_cases hl : v.digits.length > 1
    · rw [if_pos hl]
      obtain ⟨t, e, ht, hle, hq⟩ := tryChoices_spec hs hi81 (hrec i hsi hi81) v.digits
        (fun d hd => (mem_digits.1 hd).1) none
      refine ⟨t, e, ht, hle, fun sol hpf hI => hq sol hpf hI ?_⟩
      obtain ⟨f, hf, hm⟩ := hI (i % 9) (i / 9) (by omega) (by omega)
      have hidx : i / 9 * 9 + i % 9 = i := by omega
      rw [hidx, List.getElem?_eq_getElem hi, hv] at hf
      cases hf
      exact hm
    · rw [if_neg hl]
      exact ih (i + 1) hvs (by omega)

theorem solveN_spec (fuel : Nat) : ∀ (s : Sudoku) (start : Nat), s.WF → start ≤ 81 →
    82 ≤ fuel + start →
    ∃ t e, Sudoku.solveN fuel s start = .ret (t, e) ∧ t.Le s ∧
      ∀ sol, PeerFree sol → Compat sol s → e = none := by
  induction fuel with
  | zero => intro s start _ h1 h2; omega
  | succ fuel ih =>
    intro s start hs h1 h2
    unfold Sudoku.solveN
    rw [if_neg (by rw [hs.1]; omega)]
    exact scan_spec hs (fun i hsi hi s2 hs2 _ => ih s2 (i + 1) hs2 (by omega) (by omega))
      _ start rfl (Nat.le_refl _)

theorem Solve_spec {s : Sudoku} (hs : s.WF) :
    ∃ t e, s.Solve = .ret (t, e) ∧ t.Le s ∧ ∀ sol, PeerFree sol → Compat sol s → e = none := by
  unfold Sudoku.Solve Sudoku.solve
  exact solveN_spec _ s 0 hs (by omega) (by rw [hs.1])

/-! ## Reading cells -/

theorem GetField_eq {s : Sudoku} {x y : Nat} {f : Field} :
    s.GetField x y = .ret f ↔ s[y * 9 + x]? = some f := by
  unfold Sudoku.GetField Sudoku.index Sudoku.coord
  cases h : s[y * 9 + x]? with
  | none => simp
  | some g =>
    simp only [Option.some.injEq]
    constructor
    · intro e; cases e; rfl
    · intro e; rw [e]

theorem Sudoku.Lacks.getField {s : Sudoku} {x y d : Nat} (h : s.Lacks x y d) (h1 : 1 ≤ d)
    (h9 : d ≤ 9) : ∃ g, s.GetField x y = .ret g ∧ g.has d = .ret false := by
  obtain ⟨g, hg, hm⟩ := h
  exact ⟨g, GetField_eq.2 hg, by rw [has_eq g h1 h9, hm]⟩

theorem AllPossible_eq : AllPossible = .ret 511 := by decide

theorem NewSudoku_eq : NewSudoku = .ret (List.replicate 81 511) := by
  unfold NewSudoku
  rw [AllPossible_eq]
  rfl

theorem Field.Sub.lt_two_pow {g f : Field} (h : Field.Sub g f) {n : Nat} (hf : f < 2 ^ n) :
    g < 2 ^ n := by
  apply Nat.lt_pow_two_of_testBit
  intro i hi
  cases hg : g.testBit i with
  | false => rfl
  | true =>
    have h1 := h.1 i hg
    have h2 : f.testBit i = false :=
      Nat.testBit_lt_two_pow (lt_of_lt_of_le hf (Nat.pow_le_pow_right (by norm_num) hi))
    rw [h1] at h2
    exact h2

theorem Sudoku.Le.forall_mem {t s : Sudoku} (h : Sudoku.Le t s) {P : Field → Prop}
    (hP : ∀ g f, Field.Sub g f → P f → P g) (hs : ∀ f ∈ s, P f) : ∀ g ∈ t, P g := by
  induction h with
  | nil => intro g hg; simp at hg
  | cons hab _ ih =>
    intro g hg
    rcases List.mem_cons.1 hg with rfl | hg
    · exact hP _ _ hab (hs _ (List.mem_cons_self _ _))
    · exact ih (fun f hf => hs f (List.mem_cons_of_mem _ hf)) g hg

theorem exists_mem_of_ne_zero {f : Field} (h0 : f ≠ 0) (h : f < 512) :
    ∃ d, 1 ≤ d ∧ d ≤ 9 ∧ f.mem d = true := by
  obtain ⟨i, hi⟩ := Nat.ne_zero_implies_bit_true h0
  have hi9 : i < 9 := by
    by_contra hge
    have h2 : f < 2 ^ 9 := h
    have : f.testBit i = false :=
      Nat.testBit_lt_two_pow (lt_of_lt_of_le h2 (Nat.pow_le_pow_right (by norm_num) (by omega)))
    rw [hi] at this
    exact Bool.noConfusion this
  exact ⟨i + 1, by omega, by omega, by rw [Field.mem]; exact hi⟩

/-- Every reachable grid has 81 cells, each a non-empty subset of 1..9. -/
theorem Reachable.cells {s : Sudoku} (h : Reachable s) :
    s.length = 81 ∧ ∀ f ∈ s, f ≠ 0 ∧ f < 512 := by
  induction h with
  | new h =>
    rw [NewSudoku_eq] at h
    cases h
    refine ⟨by simp, fun f hf => ?_⟩
    rw [List.eq_of_mem_replicate hf]
    decide
  | @step s t x y d _ hx hy h1 h9 hset ih =>
    have hwf : s.WF := ⟨ih.1, fun f hf => lt_trans (ih.2 f hf).2 (by norm_num)⟩
    obtain ⟨t1, e1, h2, hle, _⟩ := SetField_sound hwf hx hy h1 h9
    rw [hset] at h2
    cases h2
    exact ⟨hle.length_eq.trans ih.1, hle.forall_mem
      (fun g f hsub hf => ⟨hsub.2 hf.1, hsub.lt_two_pow (n := 9) hf.2⟩) ih.2⟩

theorem Reachable.setFields {cs : List (Nat × Nat × Nat)}
    (hcs : ∀ c ∈ cs, c.1 < 9 ∧ c.2.1 < 9 ∧ 1 ≤ c.2.2 ∧ c.2.2 ≤ 9) :
    ∀ {s t : Sudoku}, Reachable s → Sudoku.SetFields cs s = .ret (t, none) → Reachable t := by
  induction cs with
  | nil =>
    intro s t hs h
    cases h
    exact hs
  | cons c rest ih =>
    intro s t hs h
    obtain ⟨x, y, d⟩ := c
    obtain ⟨hx, hy, h1, h9⟩ := hcs (x, y, d) (List.mem_cons_self _ _)
    unfold Sudoku.SetFields at h
    obtain ⟨⟨s1, e1⟩, h2, h3⟩ := ret_of_bind_eq_ret h
    cases e1 with
    | some err => cases h3
    | none =>
      exact ih (fun c hc => hcs c (List.mem_cons_of_mem _ hc))
        (Reachable.step hs hx hy h1 h9 h2) h3

/-! ## The search returns the grid it was given on failure -/

theorem tryChoices_error {recur : Sudoku → Nat → Result} {s : Sudoku} {i : Nat} :
    ∀ (choices : List Nat) (lastErr : Option Error) (t : Sudoku) (err : Error),
      Sudoku.tryChoices recur s i choices lastErr = .ret (t, some err) → t = s := by
  intro choices
  induction choices with
  | nil =>
    intro lastErr t err h
    cases h
    rfl
  | cons num rest ih =>
    intro lastErr t err h
    unfold Sudoku.tryChoices at h
    obtain ⟨⟨s2, e1⟩, _, h2⟩ := ret_of_bind_eq_ret h
    cases e1 with
    | some e => exact ih lastErr t err h2
    | none =>
      obtain ⟨⟨t2, e2⟩, _, h3⟩ := ret_of_bind_eq_ret h2
      cases e2 with
      | none => cases h3
      | some e => exact ih (some e) t err h3

theorem scan_error {recur : Sudoku → Nat → Result} {s : Sudoku} :
    ∀ (vs : List Field) (i : Nat) (t : Sudoku) (err : Error),
      Sudoku.scan recur s vs i = .ret (t, some err) → t = s := by
  intro vs
  induction vs with
  | nil =>
    intro i t err h
    cases h
  | cons v vs ih =>
    intro i t err h
    unfold Sudoku.scan at h
    obtain ⟨choices, _, h2⟩ := ret_of_bind_eq_ret h
    by_cases hl : choices.length > 1
    · rw [if_pos hl] at h2
      exact tryChoices_error choices none t err h2
    · rw [if_neg hl] at h2
      exact ih (i + 1) t err h2

theorem solveN_error (fuel : Nat) (s : Sudoku) (start : Nat) (t : Sudoku) (err : Error)
    (h : Sudoku.solveN fuel s start = .ret (t, some err)) : t = s := by
  cases fuel with
  | zero => cases h
  | succ fuel =>
    unfold Sudoku.solveN at h
    by_cases hl : start > s.length
    · rw [if_pos hl] at h
      cases h
    · rw [if_neg hl] at h
      exact scan_error _ _ t err h

/-! ## The packed functions compute the same -/

theorem Packed.testBit_get (g i k : Nat) :
    (Packed.get g i).testBit k = (decide (k < 64) && g.testBit (64 * i + k)) := by
  rw [Packed.get, Nat.testBit_mod_two_pow, Nat.testBit_shiftRight]

theorem Packed.get_lt (g i : Nat) : Packed.get g i < 2 ^ 64 :=
  Nat.mod_lt _ (by decide)

theorem Packed.get_set (g i v j : Nat) (hv : v < 2 ^ 64) :
    Packed.get (Packed.set g i v) j = if j = i then v else Packed.get g j := by
  apply Nat.eq_of_testBit_eq
  intro k
  rw [Packed.testBit_get]
  by_cases hk : k < 64
  · simp only [Packed.set, Nat.testBit_or, Nat.testBit_xor, Nat.testBit_shiftLeft,
      Packed.testBit_get, hk, decide_True, Bool.true_and]
    by_cases hji : j = i
    · subst hji
      simp [hk]
    · rw [if_neg hji, Packed.testBit_get]
      have h1 : ¬ (64 * j + k ≥ 64 * i ∧ 64 * j + k - 64 * i < 64) := by omega
      by_cases h2 : 64 * j + k ≥ 64 * i
      · have h3 : ¬ 64 * j + k - 64 * i < 64 := fun h => h1 ⟨h2, h⟩
        have h4 : v.testBit (64 * j + k - 64 * i) = false :=
          Nat.testBit_lt_two_pow (Nat.lt_of_lt_of_le hv (Nat.pow_le_pow_right (by decide) (by omega)))
        simp [h2, h3, h4, hk]
      · simp [h2, hk]
  · have h4 : v.testBit k = false :=
      Nat.testBit_lt_two_pow (Nat.lt_of_lt_of_le hv (Nat.pow_le_pow_right (by decide) (by omega)))
    by_cases hji : j = i
    · simp [hji, hk, h4]
    · simp [hji, hk, Packed.testBit_get]

theorem Packed.length_unpack (g : Nat) : (Packed.unpack g).length = 81 := by
  simp [Packed.unpack]

theorem Packed.getElem?_unpack (g i : Nat) :
    (Packed.unpack g)[i]? = if i < 81 then some (Packed.get g i) else none := by
  unfold Packed.unpack
  rw [List.getElem?_map]
  by_cases h : i < 81
  · rw [List.getElem?_range h, if_pos h]; rfl
  · rw [List.getElem?_eq_none (by simpa using h), if_neg h]; rfl

theorem Packed.unpack_set (g i v : Nat) (hv : v < 2 ^ 64) :
    (Packed.unpack g).set i v = Packed.unpack (Packed.set g i v) := by
  apply List.ext_getElem?
  intro j
  rw [List.getElem?_set, Packed.getElem?_unpack, Packed.getElem?_unpack, Packed.length_unpack]
  by_cases hj : j < 81
  · rw [if_pos hj, Packed.get_set _ _ _ _ hv]
    by_cases hij : i = j
    · subst hij; simp [hj]
    · have : ¬ j = i := fun h => hij h.symm
      simp [hij, this, hj]
  · by_cases hij : i = j
    · subst hij; simp [hj]
    · simp [hij, hj]

theorem Packed.index_unpack (g i : Nat) : Sudoku.index (Packed.unpack g) i = Packed.index g i := by
  unfold Sudoku.index Packed.index
  rw [Packed.getElem?_unpack]
  by_cases h : i < 81
  · simp only [if_pos h]
  · simp only [if_neg h]

theorem Packed.lift_bind {α : Type} (r : Run α) (k : α → Packed.Result) :
    Packed.lift (r.bind k) = r.bind fun a => Packed.lift (k a) := by
  cases r <;> rfl

theorem Packed.set_lt {f : Field} (hf : f < 2 ^ 64) {num : Nat} {val : Bool} {v : Field}
    (h : f.set num val = .ret v) : v < 2 ^ 64 := by
  unfold Field.set bit at h
  by_cases h8 : (2 ^ 64 + num - 1) % 2 ^ 64 > 8
  · simp only [h8, if_true] at h
    cases val <;> simp [Run.bind] at h
  · simp only [h8, if_false, Run.ret_bind] at h
    have hb : 1 <<< ((2 ^ 64 + num - 1) % 2 ^ 64) < 2 ^ 64 := by
      rw [Nat.one_shiftLeft]
      exact Nat.pow_lt_pow_right (by decide) (by omega)
    cases val
    · simp only [Bool.false_eq_true, if_false] at h
      rw [← Run.ret.inj h]
      exact Nat.and_lt_two_pow _ (Nat.lt_of_le_of_lt (Nat.sub_le _ _) (by decide))
    · simp only [if_true] at h
      rw [← Run.ret.inj h]
      exact Nat.or_lt_two_pow hf hb

theorem Packed.removeChecked_lt {f : Field} (hf : f < 2 ^ 64) {num : Nat} {f2 : Field}
    {e : Option Error} (h : f.removeChecked num = .ret (f2, e)) : f2 < 2 ^ 64 := by
  unfold Field.removeChecked at h
  cases hs : f.set num false with
  | ret v =>
    rw [hs, Run.ret_bind] at h
    by_cases hv : v = 0
    · rw [if_pos hv] at h
      rw [← (Prod.mk.inj (Run.ret.inj h)).1]
      exact hf
    · rw [if_neg hv] at h
      rw [← (Prod.mk.inj (Run.ret.inj h)).1]
      exact Packed.set_lt hf hs
  | fatal => rw [hs] at h; cases h
  | panic => rw [hs] at h; cases h
  | nofuel => rw [hs] at h; cases h

theorem seq_refines {a b : Sudoku → Result} {pa pb : Nat → Packed.Result}
    (ha : Packed.Refines a pa) (hb : Packed.Refines b pb) :
    Packed.Refines (seqErr a b) (Packed.seqErr pa pb) := by
  intro g
  unfold seqErr Packed.seqErr
  rw [ha g]
  cases pa g with
  | ret r =>
    obtain ⟨g1, e⟩ := r
    cases e with
    | none => exact hb g1
    | some err => rfl
  | fatal => rfl
  | panic => rfl
  | nofuel => rfl

theorem skip_refines :
    Packed.Refines (fun t => .ret (t, none)) (fun t => .ret (t, none)) :=
  fun _ => rfl

theorem loop_refines {α : Type} {body : α → Sudoku → Result}
    {pbody : α → Nat → Packed.Result} (h : ∀ a, Packed.Refines (body a) (pbody a))
    (xs : List α) : Packed.Refines (forErr body xs) (Packed.forErr pbody xs) := by
  induction xs with
  | nil => exact fun _ => rfl
  | cons a rest ih => exact seq_refines (h a) ih

theorem ite_refines (p : Prop) [Decidable p] {c : Sudoku → Result}
    {pc : Nat → Packed.Result} (h : Packed.Refines c pc) :
    Packed.Refines (fun t => if p then c t else .ret (t, none))
      (fun t => if p then pc t else .ret (t, none)) := by
  intro g
  by_cases hp : p
  · simp only [if_pos hp]; exact h g
  · simp only [if_neg hp]; rfl

theorem removeWith_refines {setField : Sudoku → Nat → Nat → Nat → Result}
    {psetField : Nat → Nat → Nat → Nat → Packed.Result}
    (h : ∀ x y d, Packed.Refines (fun t => setField t x y d) (fun t => psetField t x y d))
    (x y num : Nat) :
    Packed.Refines (fun t => Sudoku.removeWith setField t x y num)
      (fun t => Packed.removeWith psetField t x y num) := by
  intro g
  show Sudoku.removeWith setField (Packed.unpack g) x y num
    = Packed.lift (Packed.removeWith psetField g x y num)
  unfold Sudoku.removeWith Packed.removeWith
  rw [Sudoku.coord, Packed.index_unpack]
  unfold Packed.index
  by_cases hc : y * 9 + x < 81
  swap
  · rw [if_neg hc]; rfl
  rw [if_pos hc, Run.ret_bind, Run.ret_bind]
  cases hr : Field.removeChecked (Packed.get g (y * 9 + x)) num with
  | ret r =>
    obtain ⟨f2, e⟩ := r
    have hlt : f2 < 2 ^ 64 := Packed.removeChecked_lt (Packed.get_lt _ _) hr
    rw [Run.ret_bind, Run.ret_bind]
    cases e with
    | some err => rfl
    | none =>
      simp only [Packed.unpack_set _ _ _ hlt]
      by_cases hne : f2 ≠ Packed.get g (y * 9 + x)
      swap
      · rw [if_neg hne, if_neg hne]; rfl
      rw [if_pos hne, if_pos hne]
      cases f2.members with
      | ret m =>
        simp only [Run.ret_bind]
        by_cases hm : m.length = 1
        swap
        · simp only [if_neg hm]; rfl
        simp only [if_pos hm]
        cases m with
        | nil => rfl
        | cons d rest =>
          have hd : setField (Packed.unpack (Packed.set g (y * 9 + x) f2)) x y d
              = Packed.lift (psetField (Packed.set g (y * 9 + x) f2) x y d) := h x y d _
          show (setField (Packed.unpack _) x y d).bind _ = Packed.lift
            ((psetField (Packed.set g (y * 9 + x) f2) x y d).bind fun r2 => .ret (r2.1, none))
          rw [hd]
          cases psetField (Packed.set g (y * 9 + x) f2) x y d with
          | ret r2 => rfl
          | fatal => rfl
          | panic => rfl
          | nofuel => rfl
      | fatal => rfl
      | panic => rfl
      | nofuel => rfl
  | fatal => rfl
  | panic => rfl
  | nofuel => rfl

theorem peerLoops_refines {remove : Sudoku → Nat → Nat → Nat → Result}
    {premove : Nat → Nat → Nat → Nat → Packed.Result}
    (h : ∀ x y d, Packed.Refines (fun t => remove t x y d) (fun t => premove t x y d))
    (x y num : Nat) :
    Packed.Refines (Sudoku.peerLoops remove x y num) (Packed.peerLoops premove x y num) := by
  unfold Sudoku.peerLoops Packed.peerLoops
  refine seq_refines (loop_refines (fun i => ?_) _)
    (loop_refines (fun xx => loop_refines (fun yy => ?_) _) _)
  · exact seq_refines (ite_refines _ (h x i num))
      (ite_refines _ (h i y num))
  · exact ite_refines _ (h xx yy num)

theorem SetFieldN_refines (fuel : Nat) : ∀ x y num,
    Packed.Refines (fun t => Sudoku.SetFieldN fuel t x y num)
      (fun t => Packed.SetFieldN fuel t x y num) := by
  induction fuel with
  | zero => exact fun _ _ _ _ => rfl
  | succ fuel ih =>
    intro x y num g
    show Sudoku.SetFieldN (fuel + 1) (Packed.unpack g) x y num
      = Packed.lift (Packed.SetFieldN (fuel + 1) g x y num)
    unfold Sudoku.SetFieldN Packed.SetFieldN
    rw [Sudoku.coord, Packed.index_unpack]
    unfold Packed.index
    by_cases hc : y * 9 + x < 81
    swap
    · rw [if_neg hc]; rfl
    rw [if_pos hc, Run.ret_bind, Run.ret_bind]
    cases Field.has (Packed.get g (y * 9 + x)) num with
    | ret hb =>
      rw [Run.ret_bind, Run.ret_bind]
      cases hb with
      | false => rfl
      | true =>
        simp only [Bool.not_true, Bool.false_eq_true, if_false]
        cases hv : Field.add 0 num with
        | ret v =>
          rw [Run.ret_bind, Run.ret_bind]
          have hlt : v < 2 ^ 64 := Packed.set_lt (by decide) hv
          rw [Packed.unpack_set _ _ _ hlt]
          exact peerLoops_refines
            (fun x1 y1 d => removeWith_refines ih x1 y1 d) x y num _
        | fatal => rfl
        | panic => rfl
        | nofuel => rfl
    | fatal => rfl
    | panic => rfl
    | nofuel => rfl

theorem Packed.SetField_unpack (g x y num : Nat) :
    Sudoku.SetField (Packed.unpack g) x y num = Packed.lift (Packed.SetField g x y num) := by
  unfold Sudoku.SetField Packed.SetField
  rw [Packed.length_unpack]
  exact SetFieldN_refines _ x y num g

theorem tryChoices_refines {recur : Sudoku → Nat → Result} {precur : Nat → Nat → Packed.Result}
    (h : ∀ g i, recur (Packed.unpack g) i = Packed.lift (precur g i)) (g i : Nat)
    (choices : List Nat) : ∀ lastErr,
    Sudoku.tryChoices recur (Packed.unpack g) i choices lastErr
      = Packed.lift (Packed.tryChoices precur g i choices lastErr) := by
  induction choices with
  | nil => exact fun _ => rfl
  | cons num rest ih =>
    intro lastErr
    unfold Sudoku.tryChoices Packed.tryChoices
    rw [Packed.SetField_unpack]
    cases Packed.SetField g (i % 9) (i / 9) num with
    | ret r =>
      obtain ⟨g2, e⟩ := r
      cases e with
      | some err => exact ih lastErr
      | none =>
        show (recur (Packed.unpack g2) (i + 1)).bind _
          = Packed.lift ((precur g2 (i + 1)).bind _)
        rw [h g2 (i + 1)]
        cases precur g2 (i + 1) with
        | ret r2 =>
          obtain ⟨res, e2⟩ := r2
          cases e2 with
          | none => rfl
          | some err => exact ih (some err)
        | fatal => rfl
        | panic => rfl
        | nofuel => rfl
    | fatal => rfl
    | panic => rfl
    | nofuel => rfl

theorem scan_refines {recur : Sudoku → Nat → Result} {precur : Nat → Nat → Packed.Result}
    (h : ∀ g i, recur (Packed.unpack g) i = Packed.lift (precur g i)) (g : Nat) (n : Nat) :
    ∀ i, i + n = 81 →
    Sudoku.scan recur (Packed.unpack g) ((Packed.unpack g).drop i) i
      = Packed.lift (Packed.scan precur g n i) := by
  induction n with
  | zero =>
    intro i hi
    have hd : (Packed.unpack g).drop i = [] :=
      List.drop_eq_nil_of_le (by rw [Packed.length_unpack]; omega)
    rw [hd]
    rfl
  | succ n ih =>
    intro i hi
    have hlt : i < 81 := by omega
    have hg : (Packed.unpack g)[i]? = some (Packed.get g i) := by
      rw [Packed.getElem?_unpack, if_pos hlt]
    have hd : (Packed.unpack g).drop i = Packed.get g i :: (Packed.unpack g).drop (i + 1) := by
      have hlen : i < (Packed.unpack g).length := by rw [Packed.length_unpack]; exact hlt
      rw [List.drop_eq_getElem_cons hlen]
      congr 1
      rw [List.getElem?_eq_getElem hlen] at hg
      exact Option.some.inj hg
    rw [hd]
    unfold Sudoku.scan Packed.scan
    cases Field.members (Packed.get g i) with
    | ret choices =>
      rw [Run.ret_bind, Run.ret_bind]
      by_cases hc : choices.length > 1
      · rw [if_pos hc, if_pos hc]
        exact tryChoices_refines h g i choices none
      · rw [if_neg hc, if_neg hc]
        exact ih (i + 1) (by omega)
    | fatal => rfl
    | panic => rfl
    | nofuel => rfl

theorem solveN_refines (fuel : Nat) : ∀ g start,
    Sudoku.solveN fuel (Packed.unpack g) start = Packed.lift (Packed.solveN fuel g start) := by
  induction fuel with
  | zero => exact fun _ _ => rfl
  | succ fuel ih =>
    intro g start
    unfold Sudoku.solveN Packed.solveN
    rw [Packed.length_unpack]
    by_cases hs : start > 81
    · rw [if_pos hs, if_pos hs]; rfl
    · rw [if_neg hs, if_neg hs]
      exact scan_refines ih g (81 - start) start (by omega)

theorem Solve_refines (g : Nat) :
    Sudoku.Solve (Packed.unpack g) = Packed.lift (Packed.Solve g) := by
  unfold Sudoku.Solve Sudoku.solve Packed.Solve
  rw [Packed.length_unpack]
  exact solveN_refines 82 g 0

theorem parseLine_refines (y : Nat) (line : List Char) : ∀ x g,
    parseLine y line x (Packed.unpack g) = Packed.lift (Packed.parseLine y line x g) := by
  induction line with
  | nil => exact fun _ _ => rfl
  | cons field rest ih =>
    intro x g
    unfold parseLine Packed.parseLine
    by_cases h1 : field.toNat = 95
    · rw [if_pos h1, if_pos h1]; exact ih _ _
    rw [if_neg h1, if_neg h1]
    by_cases h2 : field.toNat < 48 ∨ field.toNat > 57
    · rw [if_pos h2, if_pos h2]; exact ih _ _
    rw [if_neg h2, if_neg h2, Packed.SetField_unpack]
    cases Packed.SetField g x y (field.toNat - 48) with
    | ret r =>
      obtain ⟨g1, e⟩ := r
      cases e with
      | some err => rfl
      | none => exact ih _ _
    | fatal => rfl
    | panic => rfl
    | nofuel => rfl

theorem parseLines_refines (lines : List (List Char)) : ∀ y g,
    parseLines lines y (Packed.unpack g) = Packed.lift (Packed.parseLines lines y g) := by
  induction lines with
  | nil => exact fun _ _ => rfl
  | cons line rest ih =>
    intro y g
    unfold parseLines Packed.parseLines
    by_cases h1 : line.all isSpace
    · rw [if_pos h1, if_pos h1]; exact ih _ _
    rw [if_neg h1, if_neg h1, parseLine_refines]
    cases Packed.parseLine y line 0 g with
    | ret r =>
      obtain ⟨g1, e⟩ := r
      cases e with
      | some err => rfl
      | none => exact ih _ _
    | fatal => rfl
    | panic => rfl
    | nofuel => rfl

theorem SetFields_refines (cs : List (Nat × Nat × Nat)) : ∀ g,
    Sudoku.SetFields cs (Packed.unpack g) = Packed.lift (Packed.SetFields cs g) := by
  induction cs with
  | nil => exact fun _ => rfl
  | cons c rest ih =>
    intro g
    obtain ⟨x, y, d⟩ := c
    unfold Sudoku.SetFields Packed.SetFields
    rw [Packed.SetField_unpack]
    cases Packed.SetField g x y d with
    | ret r =>
      obtain ⟨g1, e⟩ := r
      cases e with
      | some err => rfl
      | none => exact ih _
    | fatal => rfl
    | panic => rfl
    | nofuel => rfl

/-- Evaluating `SetField` on the packed copy of a grid. -/

theorem SetField_of_packed {s t : Sudoku} {x y num : Nat} {e : Option Error}
    (hs : Packed.unpack (Packed.pack s) = s) (ht : Packed.unpack (Packed.pack t) = t)
    (h : Packed.SetField (Packed.pack s) x y num = .ret (Packed.pack t, e)) :
    Sudoku.SetField s x y num = .ret (t, e) := by
  rw [← hs, Packed.SetField_unpack, h]
  show Run.ret (Packed.unpack (Packed.pack t), e) = _
  rw [ht]

/-- Evaluating a sequence of `SetField` calls on the packed copy of a grid. -/

theorem SetFields_of_packed {s t : Sudoku} {cs : List (Nat × Nat × Nat)} {e : Option Error}
    (hs : Packed.unpack (Packed.pack s) = s) (ht : Packed.unpack (Packed.pack t) = t)
    (h : Packed.SetFields cs (Packed.pack s) = .ret (Packed.pack t, e)) :
    Sudoku.SetFields cs s = .ret (t, e) := by
  rw [← hs, SetFields_refines, h]
  show Run.ret (Packed.unpack (Packed.pack t), e) = _
  rw [ht]

/-- Evaluating `Solve` on the packed copy of a grid. -/

theorem Solve_of_packed {s t : Sudoku} {e : Option Error}
    (hs : Packed.unpack (Packed.pack s) = s) (ht : Packed.unpack (Packed.pack t) = t)
    (h : Packed.Solve (Packed.pack s) = .ret (Packed.pack t, e)) :
    Sudoku.Solve s = .ret (t, e) := by
  rw [← hs, Solve_refines, h]
  show Run.ret (Packed.unpack (Packed.pack t), e) = _
  rw [ht]

/-- Evaluating a successful `Parse` on the packed copy of the fresh grid. -/

theorem Parse_of_packed {input : String} {t : Sudoku}
    (ht : Packed.unpack (Packed.pack t) = t)
    (h : Packed.parseLines (splitLines input.toList) 0 (Packed.pack (List.replicate 81 511))
      = .ret (Packed.pack t, none)) :
    Parse input = .ret (t, none) := by
  have hs : Packed.unpack (Packed.pack (List.replicate 81 511)) = List.replicate (9 * 9) 511 := by
    decide!
  unfold Parse
  rw [AllPossible_eq, Run.ret_bind, ← hs, parseLines_refines, h]
  show Run.ret (Packed.unpack (Packed.pack t), none) = _
  rw [ht]

/-! ## The claims -/

theorem compat_of_members {g : Sudoku} {sol : Nat → Nat → Nat}
    (hmem : ∀ x y, x < 9 → y < 9 →
      ∃ f m, g.GetField x y = .ret f ∧ f.members = .ret m ∧ sol x y ∈ m) :
    Compat sol g := by
  intro x y hx hy
  obtain ⟨f, m, hf, hm, hs⟩ := hmem x y hx hy
  rw [members_eq] at hm
  cases hm
  exact ⟨f, GetField_eq.1 hf, hs⟩

theorem members_of_getD {g : Sudoku} (hlen : g.length = 81) {sol : Nat → Nat → Nat}
    (h : ∀ x, x < 9 → ∀ y, y < 9 → sol x y ∈ (g.getD (y * 9 + x) 0).digits) :
    ∀ x y, x < 9 → y < 9 →
      ∃ f m, g.GetField x y = .ret f ∧ f.members = .ret m ∧ sol x y ∈ m := by
  intro x y hx hy
  have hl : y * 9 + x < g.length := by rw [hlen]; omega
  refine ⟨g.getD (y * 9 + x) 0, _, GetField_eq.2 ?_, members_eq _, h x hx y hy⟩
  rw [List.getD_eq_getElem?_getD, List.getElem?_eq_getElem hl]
  rfl

/-- C2. For every grid of 81 cells, each a subset of 1..9: if some completed
Sudoku (every row, column and box holds 1..9 exactly once) has, at every cell,
a digit that is a member of the cell's candidate set, then `Solve` returns a
grid and no error. -/
theorem C2_solve_succeeds_on_solvable (g : Sudoku) (hlen : g.length = 81)
    (hcells : ∀ f ∈ g, f < 512) (sol : Nat → Nat → Nat) (hsol : Complete sol)
    (hmem : ∀ x y, x < 9 → y < 9 →
      ∃ f m, g.GetField x y = .ret f ∧ f.members = .ret m ∧ sol x y ∈ m) :
    ∃ t, g.Solve = .ret (t, none) := by
  have hwf : g.WF := ⟨hlen, fun f hf => lt_trans (hcells f hf) (by norm_num)⟩
  have hI : Compat sol g := compat_of_members hmem
  have hr : ∀ x y, x < 9 → y < 9 → 1 ≤ sol x y ∧ sol x y ≤ 9 := by
    intro x y hx hy
    obtain ⟨f, _, hm⟩ := hI x y hx hy
    exact (mem_digits.1 hm).1
  obtain ⟨t, e, ht, _, hq⟩ := Solve_spec hwf
  have he := hq sol (hsol.peerFree hr) hI
  subst he
  exact ⟨t, ht⟩

/-- C4. For every grid of 81 cells, every position and every digit 1..9,
`SetField` returns, and when it returns no error, no peer of the position (a
different cell in its row, column or 3x3 box) has the digit any more. -/
theorem C4_assignment_clears_peers (s : Sudoku) (hlen : s.length = 81)
    (hcells : ∀ f ∈ s, f < 2 ^ 64) (x y d : Nat) (hx : x < 9) (hy : y < 9) (h1 : 1 ≤ d)
    (h9 : d ≤ 9) :
    (∃ t e, s.SetField x y d = .ret (t, e)) ∧
      ∀ t, s.SetField x y d = .ret (t, none) →
        ∀ x1 y1, x1 < 9 → y1 < 9 → Peers x y x1 y1 →
          ∃ g, t.GetField x1 y1 = .ret g ∧ g.has d = .ret false := by
  obtain ⟨t, e, ht, _, hq⟩ := SetField_sound ⟨hlen, hcells⟩ hx hy h1 h9
  refine ⟨⟨t, e, ht⟩, fun t1 h x1 y1 hx1 hy1 hp => ?_⟩
  rw [ht] at h
  cases h
  exact ((hq rfl).2 x1 y1 hx1 hy1 hp).getField h1 h9

/-- C7. For every grid, every position whose cell `GetField` can read (on a
grid of 81 cells, every position with coordinates in 0..8) and every digit
1..9: if the cell does not have the digit, `SetField` returns an error and the
grid is exactly as it was. -/
theorem C7_inconsistent_assignment_rejected (s : Sudoku) (x y d : Nat) (h1 : 1 ≤ d)
    (h9 : d ≤ 9) (f : Field) (hf : s.GetField x y = .ret f) (hd : f.has d = .ret false) :
    ∃ err, s.SetField x y d = .ret (s, some err) := by
  have hf1 := GetField_eq.1 hf
  rw [has_eq f h1 h9] at hd
  have hm : f.mem d = false := Run.ret.inj hd
  unfold Sudoku.SetField Sudoku.SetFieldN
  simp only [Sudoku.index, Sudoku.coord, hf1, Run.ret_bind, has_eq f h1 h9, hm,
    Bool.not_false, if_true]
  exact ⟨_, rfl⟩

/-- C8. Every grid reachable from `NewSudoku()` by successful `SetField` calls
has 81 cells and none of them is empty: its value is not 0 and it has a
member. -/
theorem C8_no_empty_cell (s : Sudoku) (h : Reachable s) :
    s.length = 81 ∧ ∀ x y, x < 9 → y < 9 →
      ∃ f, s.GetField x y = .ret f ∧ f ≠ 0 ∧ ∃ d, f.has d = .ret true := by
  obtain ⟨hlen, hc⟩ := h.cells
  refine ⟨hlen, fun x y hx hy => ?_⟩
  have hl : y * 9 + x < s.length := by rw [hlen]; omega
  have hf : s[y * 9 + x]? = some s[y * 9 + x] := List.getElem?_eq_getElem hl
  obtain ⟨h0, h512⟩ := hc _ (List.getElem?_mem hf)
  obtain ⟨d, hd1, hd9, hm⟩ := exists_mem_of_ne_zero h0 h512
  exact ⟨_, GetField_eq.2 hf, h0, d, by rw [has_eq _ hd1 hd9, hm]⟩

/-- C9. Whenever the search, started at any index of any grid, returns an
error, the grid returned with it is the grid it was called on; the same holds
for `Solve`. -/
theorem C9_failure_returns_input (g : Sudoku) (start : Nat) (t : Sudoku) (err : Error) :
    (g.solve start = .ret (t, some err) → t = g) ∧
      (g.Solve = .ret (t, some err) → t = g) :=
  ⟨fun h => solveN_error _ g start t err h, fun h => solveN_error _ g 0 t err h⟩

theorem clear_eq_zero_iff : ∀ S, S < 512 → ∀ d, d < 10 → 1 ≤ d →
    (Field.clear S d = 0 ↔ (Field.digits S = [] ∨ Field.digits S = [d])) := by
  decide!

/-- C10, as stated, fails: removing 1 from the empty set is an error, though
the empty set does not have 1 as its only member. -/
theorem C10_counterexample :
    ¬ ((∃ f err, Field.removeChecked 0 1 = .ret (f, some err)) ↔
      Field.members 0 = .ret [1]) := by
  intro h
  have h1 : Field.members 0 = .ret [1] := h.1 ⟨0, _, rfl⟩
  revert h1
  decide

/-- C10, amended. For every subset S of 1..9 and digit d in 1..9,
`removeChecked` returns, and it returns an error if and only if S without d is
empty, that is, S is empty or d is its only member. -/
theorem C10_removeChecked_error_iff (S : Field) (hS : S < 512) (d : Nat) (h1 : 1 ≤ d)
    (h9 : d ≤ 9) :
    ∃ f e, S.removeChecked d = .ret (f, e) ∧
      (e ≠ none ↔ (S.members = .ret [] ∨ S.members = .ret [d])) := by
  have hiff := clear_eq_zero_iff S hS d (by omega) h1
  rw [removeChecked_eq S h1 h9, members_eq]
  by_cases hz : S.clear d = 0
  · rw [if_pos hz]
    refine ⟨_, _, rfl, fun _ => ?_, fun _ => by simp⟩
    rcases hiff.1 hz with h | h
    · exact Or.inl (by rw [h])
    · exact Or.inr (by rw [h])
  · rw [if_neg hz]
    refine ⟨_, _, rfl, fun h => absurd rfl h, fun h => ?_⟩
    refine absurd (hiff.2 ?_) hz
    rcases h with h | h
    · exact Or.inl (Run.ret.inj h)
    · exact Or.inr (Run.ret.inj h)

theorem Example.solution_complete : Complete Example.solution := by
  unfold Complete
  decide!

/-- C2 at the example puzzle: the grid `Parse` builds admits the expected
solution, so `Solve` reports no error on it. -/
theorem C2_witness :
    Complete Example.solution ∧ ∃ t, Sudoku.Solve Example.parsed = .ret (t, none) :=
  ⟨Example.solution_complete,
    C2_solve_succeeds_on_solvable Example.parsed (by decide) (by decide) Example.solution
      Example.solution_complete (members_of_getD (by decide) (by decide!))⟩

/-- C4 at the fresh grid: after `SetField(0, 0, 1)` the peer (1, 0) has lost
the digit 1. -/
theorem C4_witness :
    Sudoku.SetField Example.fresh 0 0 1 = .ret (Example.afterOne, none) ∧
      ∃ g, Sudoku.GetField Example.afterOne 1 0 = .ret g ∧ g.has 1 = .ret false :=
  ⟨by decide!,
    (C4_assignment_clears_peers Example.fresh (by decide) (by decide) 0 0 1 (by decide)
      (by decide) (by decide) (by decide)).2 Example.afterOne (by decide!) 1 0 (by decide)
      (by decide) ⟨by decide, Or.inr (Or.inl rfl)⟩⟩

/-- C7 at the grid of `TestSetField`: cell (0, 0) holds 1, so `SetField(0, 0,
2)` is rejected and the grid is unchanged. -/
theorem C7_witness :
    Sudoku.GetField Example.afterOne 0 0 = .ret 1 ∧ Field.has 1 2 = .ret false ∧
      ∃ err, Sudoku.SetField Example.afterOne 0 0 2 = .ret (Example.afterOne, some err) :=
  ⟨by decide, by decide,
    C7_inconsistent_assignment_rejected Example.afterOne 0 0 2 (by decide) (by decide) 1
      (by decide) (by decide)⟩

theorem Example.fresh_reachable : Reachable Example.fresh :=
  Reachable.new (by decide)

theorem Example.afterOne_reachable : Reachable Example.afterOne :=
  Reachable.step Example.fresh_reachable (by decide) (by decide) (by decide) (by decide)
    (by decide! : Sudoku.SetField Example.fresh 0 0 1 = .ret (Example.afterOne, none))

/-- C8 at the grid reached by `SetField(0, 0, 1)`: cell (1, 0) is not empty. -/
theorem C8_witness :
    Reachable Example.afterOne ∧
      ∃ f, Sudoku.GetField Example.afterOne 1 0 = .ret f ∧ f ≠ 0 ∧
        ∃ d, f.has d = .ret true :=
  ⟨Example.afterOne_reachable,
    (C8_no_empty_cell Example.afterOne Example.afterOne_reachable).2 1 0 (by decide)
      (by decide)⟩

/-- C9 at a grid with no solution: `Solve` fails at cell (0, 0) and hands the
grid back. -/
theorem C9_witness :
    ∃ t err, Sudoku.Solve Example.stuck = .ret (t, some err) ∧ t = Example.stuck :=
  ⟨Example.stuck, .noChoiceNil 0 0, by decide!,
    (C9_failure_returns_input Example.stuck 0 Example.stuck (.noChoiceNil 0 0)).2
      (by decide!)⟩

/-- C10 (amended) at the singleton of 1: removing 1 is an error. -/
theorem C10_witness :
    ∃ f e, Field.removeChecked 1 1 = .ret (f, e) ∧
      (e ≠ none ↔ (Field.members 1 = .ret [] ∨ Field.members 1 = .ret [1])) :=
  C10_removeChecked_error_iff 1 (by decide) 1 (by decide) (by decide)

/-! ## The example of `TestSolve`, evaluated -/

theorem Example.parse_puzzle : Parse Example.puzzle = .ret (Example.parsed, none) :=
  Parse_of_packed (by decide!) (by decide!)

theorem Example.solve_parsed : Sudoku.Solve Example.parsed = .ret (Example.solved, none) :=
  Solve_of_packed (by decide!) (by decide!) (by decide!)

theorem Example.solved_cells : ∀ x, x < 9 → ∀ y, y < 9 →
    Sudoku.GetField Example.solved x y = Field.add 0 (Example.solution x y) := by
  decide!

theorem Example.parse_solution :
    Parse Example.solutionText = .ret (Example.solved, none) :=
  Parse_of_packed (by decide!) (by decide!)

/-- C3. `Parse` accepts the example puzzle, `Solve` on the parsed grid returns
no error, the returned grid holds at cell (x, y) the singleton of the x-th
digit of the y-th row of the expected solution, and it is the grid `Parse`
builds from the expected solution written with spaces. -/
theorem C3_example_solved :
    ∃ g t, Parse Example.puzzle = .ret (g, none) ∧ g.Solve = .ret (t, none) ∧
      (∀ x, x < 9 → ∀ y, y < 9 → t.GetField x y = Field.add 0 (Example.solution x y)) ∧
      Parse Example.solutionText = .ret (t, none) :=
  ⟨Example.parsed, Example.solved, Example.parse_puzzle, Example.solve_parsed,
    Example.solved_cells, Example.parse_solution⟩

/-! ## The dropped error of a cascaded `SetField`, evaluated -/

theorem Example.dupSteps_run :
    Sudoku.SetFields Example.dupSteps Example.fresh = .ret (Example.twoFours, none) :=
  SetFields_of_packed (by decide!) (by decide!) (by decide!)

theorem Example.twoFours_reachable : Reachable Example.twoFours :=
  Reachable.setFields (by decide) Example.fresh_reachable Example.dupSteps_run

/-- C5 fails on the code: eight `SetField` calls, none of which returns an
error, lead from `NewSudoku()` to a grid in which the cells (7, 4) and (8, 4),
which share row 4, both hold exactly the digit 4. -/
theorem C5_duplicate_singles_reachable :
    ∃ s, Reachable s ∧ s.GetField 7 4 = .ret 8 ∧ s.GetField 8 4 = .ret 8 ∧
      Field.members 8 = .ret [4] :=
  ⟨Example.twoFours, Example.twoFours_reachable, by decide, by decide, by decide⟩

theorem Example.oneGiven_reachable : Reachable Example.oneGiven :=
  Reachable.step Example.fresh_reachable (by decide) (by decide) (by decide) (by decide)
    (by decide! : Sudoku.SetField Example.fresh 8 1 4 = .ret (Example.oneGiven, none))

theorem Example.solve_oneGiven :
    Sudoku.Solve Example.oneGiven = .ret (Example.bogus, none) :=
  Solve_of_packed (by decide!) (by decide!) (by decide!)

theorem Example.bogus_not_solved : ¬ Solved Example.bogus := by
  unfold Solved
  decide!

/-- C1 fails on the code: on the grid reached from `NewSudoku()` by the single
call `SetField(8, 1, 4)`, `Solve` returns no error and a grid that is not a
solution (its row 4 holds the digit 2 at both (7, 4) and (8, 4)). -/
theorem C1_solve_returns_invalid_grid :
    ∃ g t, Reachable g ∧ g.Solve = .ret (t, none) ∧ ¬ Solved t ∧
      t.GetField 7 4 = Field.add 0 2 ∧ t.GetField 8 4 = Field.add 0 2 :=
  ⟨Example.oneGiven, Example.bogus, Example.oneGiven_reachable, Example.solve_oneGiven,
    Example.bogus_not_solved, by decide, by decide⟩

instance Peers.decidable (x y x1 y1 : Nat) : Decidable (Peers x y x1 y1) :=
  inferInstanceAs (Decidable
    ((x1, y1) ≠ (x, y) ∧ (x1 = x ∨ y1 = y ∨ (x1 / 3 = x / 3 ∧ y1 / 3 = y / 3))))

instance Field.Calm.decidable (g : Field) (d : Nat) : Decidable (g.Calm d) :=
  inferInstanceAs (Decidable (Field.add 0 d ≠ .ret g ∧
    ¬ (g.has d = .ret true ∧ (g.members.bind fun m => .ret m.length) = .ret 2)))

/-! ## Assignments that trigger no cascade -/

theorem Exact.skip_exact (d : Nat) : Exact d (fun t => .ret (t, none)) fun _ => False :=
  fun s _ _ => ⟨s, rfl, rfl, fun _ => ⟨fun h => h.elim, fun _ => rfl⟩⟩

theorem Exact.congr {d : Nat} {c : Sudoku → Result} {P Q : Nat → Prop}
    (h : Exact d c P) (hpq : ∀ i, Q i ↔ P i) : Exact d c Q := by
  intro s hlen hq
  obtain ⟨t, ht, hl, hi⟩ := h s (fun i hp => hlen i ((hpq i).2 hp))
    (fun i f hp => hq i f ((hpq i).2 hp))
  refine ⟨t, ht, hl, fun i => ⟨fun hp => (hi i).1 ((hpq i).1 hp), fun hn => (hi i).2 ?_⟩⟩
  exact fun hp => hn ((hpq i).2 hp)

theorem Exact.seq_exact {d : Nat} {a b : Sudoku → Result} {P Q : Nat → Prop}
    (ha : Exact d a P) (hb : Exact d b Q) (hdis : ∀ i, P i → ¬ Q i) :
    Exact d (seqErr a b) fun i => P i ∨ Q i := by
  intro s hlen hq
  obtain ⟨t1, ht1, hl1, hi1⟩ := ha s (fun i hp => hlen i (Or.inl hp))
    (fun i f hp => hq i f (Or.inl hp))
  have hQ1 : ∀ i, Q i → t1[i]? = s[i]? := fun i hqi => (hi1 i).2 fun hp => hdis i hp hqi
  obtain ⟨t2, ht2, hl2, hi2⟩ := hb t1 (fun i hp => by rw [hl1]; exact hlen i (Or.inr hp))
    (fun i f hp hf => hq i f (Or.inr hp) (by rw [← hQ1 i hp]; exact hf))
  refine ⟨t2, ?_, hl2.trans hl1, fun i => ⟨fun hpq => ?_, fun hn => ?_⟩⟩
  · simp only [seqErr, ht1, Run.ret_bind, ht2]
  · rcases hpq with hp | hqi
    · rw [(hi2 i).2 (hdis i hp), (hi1 i).1 hp]
    · rw [(hi2 i).1 hqi, hQ1 i hqi]
  · rw [(hi2 i).2 fun hqi => hn (Or.inr hqi), (hi1 i).2 fun hp => hn (Or.inl hp)]

theorem Exact.loop_exact {α : Type} {d : Nat} {body : α → Sudoku → Result} {Ps : α → Nat → Prop}
    (xs : List α) (hnd : xs.Nodup)
    (hdis : ∀ a ∈ xs, ∀ b ∈ xs, a ≠ b → ∀ i, Ps a i → ¬ Ps b i)
    (h : ∀ a ∈ xs, Exact d (body a) (Ps a)) :
    Exact d (forErr body xs) fun i => ∃ a ∈ xs, Ps a i := by
  induction xs with
  | nil => exact (Exact.skip_exact d).congr fun i => ⟨fun ⟨a, ha, _⟩ => by simp at ha, fun h => h.elim⟩
  | cons a rest ih =>
    obtain ⟨hnot, hnd1⟩ := List.nodup_cons.1 hnd
    have h1 := h a (List.mem_cons_self _ _)
    have h2 := ih hnd1
      (fun b hb c hc => hdis b (List.mem_cons_of_mem _ hb) c (List.mem_cons_of_mem _ hc))
      (fun b hb => h b (List.mem_cons_of_mem _ hb))
    have hdis1 : ∀ i, Ps a i → ¬ ∃ b ∈ rest, Ps b i := by
      rintro i hp ⟨b, hb, hpb⟩
      refine hdis a (List.mem_cons_self _ _) b (List.mem_cons_of_mem _ hb) ?_ i hp hpb
      rintro rfl
      exact hnot hb
    refine (Exact.seq_exact h1 h2 hdis1).congr fun i => ⟨?_, ?_⟩
    · rintro ⟨b, hb, hp⟩
      rcases List.mem_cons.1 hb with rfl | hb
      · exact Or.inl hp
      · exact Or.inr ⟨b, hb, hp⟩
    · rintro (hp | ⟨b, hb, hp⟩)
      · exact ⟨a, List.mem_cons_self _ _, hp⟩
      · exact ⟨b, List.mem_cons_of_mem _ hb, hp⟩

theorem Exact.ite_exact {d : Nat} (p : Prop) [Decidable p] {c : Sudoku → Result} {P : Nat → Prop}
    (h : Exact d c P) : Exact d (fun t => if p then c t else .ret (t, none))
      fun i => p ∧ P i := by
  by_cases hp : p
  · simp only [if_pos hp]
    exact h.congr fun i => ⟨fun h => h.2, fun h => ⟨hp, h⟩⟩
  · simp only [if_neg hp]
    exact (Exact.skip_exact d).congr fun i => ⟨fun h => hp h.1, fun h => h.elim⟩

theorem Exact.removeWith_exact {d : Nat} (h1 : 1 ≤ d) (h9 : d ≤ 9)
    (setField : Sudoku → Nat → Nat → Nat → Result) (x y : Nat) :
    Exact d (fun t => Sudoku.removeWith setField t x y d) fun i => i = y * 9 + x := by
  intro s hlen hq
  have hl : y * 9 + x < s.length := hlen _ rfl
  have hf : s[y * 9 + x]? = some s[y * 9 + x] := List.getElem?_eq_getElem hl
  generalize s[y * 9 + x] = f at hf
  obtain ⟨hz, hcalm⟩ := hq _ f rfl hf
  refine ⟨s.set (y * 9 + x) (f.clear d), ?_, List.length_set _ _ _, fun i => ⟨?_, ?_⟩⟩
  · simp only [Sudoku.removeWith, Sudoku.index, Sudoku.coord, hf, Run.ret_bind,
      removeChecked_eq f h1 h9, if_neg hz]
    by_cases he : f.clear d = f
    · simp only [ne_eq, he, not_true_eq_false, if_false]
    · simp only [ne_eq, he, not_false_eq_true, if_true, members_eq, Run.ret_bind,
        if_neg (hcalm he)]
  · rintro rfl
    rw [List.getElem?_set_self hl, hf]
    rfl
  · intro hne
    exact List.getElem?_set_ne (fun e => hne e.symm)

theorem Exact.peerLoops_exact {d : Nat} (h1 : 1 ≤ d) (h9 : d ≤ 9)
    (setField : Sudoku → Nat → Nat → Nat → Result) {x y : Nat} (hx : x < 9) (hy : y < 9) :
    Exact d (Sudoku.peerLoops (Sudoku.removeWith setField) x y d) fun i =>
      ∃ x1 y1, x1 < 9 ∧ y1 < 9 ∧ Peers x y x1 y1 ∧ i = y1 * 9 + x1 := by
  have hloop1 : Exact d
      (forErr (fun i => seqErr
        (fun t => if i ≠ y then Sudoku.removeWith setField t x i d else .ret (t, none))
        (fun t => if i ≠ x then Sudoku.removeWith setField t i y d else .ret (t, none)))
        (List.range 9))
      (fun j => ∃ i ∈ List.range 9,
        (i ≠ y ∧ j = i * 9 + x) ∨ (i ≠ x ∧ j = y * 9 + i)) := by
    refine Exact.loop_exact (List.range 9) (List.nodup_range 9) ?_ fun i hi => ?_
    · intro a ha b hb hab j hpa hpb
      have ha9 := List.mem_range.1 ha
      have hb9 := List.mem_range.1 hb
      omega
    · have hi9 := List.mem_range.1 hi
      refine Exact.seq_exact (Exact.ite_exact (i ≠ y) (Exact.removeWith_exact h1 h9 setField x i))
        (Exact.ite_exact (i ≠ x) (Exact.removeWith_exact h1 h9 setField i y)) ?_
      intro j hp hq
      omega
  have hloop2 : Exact d
      (forErr (fun xx => forErr (fun yy t =>
        if xx ≠ x ∧ yy ≠ y then Sudoku.removeWith setField t xx yy d else .ret (t, none))
        (List.range' (y / 3 * 3) 3)) (List.range' (x / 3 * 3) 3))
      (fun j => ∃ xx ∈ List.range' (x / 3 * 3) 3, ∃ yy ∈ List.range' (y / 3 * 3) 3,
        (xx ≠ x ∧ yy ≠ y) ∧ j = yy * 9 + xx) := by
    refine Exact.loop_exact _ (List.nodup_range' _ _) ?_ fun xx hxx => ?_
    · rintro a ha b hb hab j ⟨ya, hya, hpa⟩ ⟨yb, hyb, hpb⟩
      simp only [List.mem_range'_1] at ha hb hya hyb
      omega
    · refine Exact.loop_exact _ (List.nodup_range' _ _) ?_ fun yy hyy =>
        Exact.ite_exact (xx ≠ x ∧ yy ≠ y) (Exact.removeWith_exact h1 h9 setField xx yy)
      intro a ha b hb hab j hpa hpb
      simp only [List.mem_range'_1] at ha hb hxx
      omega
  have hdis : ∀ j, (∃ i ∈ List.range 9,
      (i ≠ y ∧ j = i * 9 + x) ∨ (i ≠ x ∧ j = y * 9 + i)) →
      ¬ ∃ xx ∈ List.range' (x / 3 * 3) 3, ∃ yy ∈ List.range' (y / 3 * 3) 3,
        (xx ≠ x ∧ yy ≠ y) ∧ j = yy * 9 + xx := by
    rintro j ⟨i, hi, h⟩ ⟨xx, hxx, yy, hyy, hne, hj⟩
    have hi9 := List.mem_range.1 hi
    simp only [List.mem_range'_1] at hxx hyy
    omega
  refine (Exact.seq_exact hloop1 hloop2 hdis).congr fun j => ⟨?_, ?_⟩
  · rintro ⟨x1, y1, hx1, hy1, hp, rfl⟩
    by_cases hxe : x1 = x
    · subst hxe
      have hyne : y1 ≠ y := fun e => hp.1 (by rw [e])
      exact Or.inl ⟨y1, List.mem_range.2 hy1, Or.inl ⟨hyne, rfl⟩⟩
    · by_cases hye : y1 = y
      · subst hye
        exact Or.inl ⟨x1, List.mem_range.2 hx1, Or.inr ⟨hxe, rfl⟩⟩
      · have hbox : x1 / 3 = x / 3 ∧ y1 / 3 = y / 3 := by
          rcases hp.2 with h | h | h
          · exact absurd h hxe
          · exact absurd h hye
          · exact h
        refine Or.inr ⟨x1, ?_, y1, ?_, ⟨hxe, hye⟩, rfl⟩
        · simp only [List.mem_range'_1]; omega
        · simp only [List.mem_range'_1]; omega
  · rintro (⟨i, hi, h | h⟩ | ⟨xx, hxx, yy, hyy, hne, rfl⟩)
    · have hi9 := List.mem_range.1 hi
      exact ⟨x, i, hx, hi9, ⟨fun e => h.1 (Prod.mk.inj e).2, Or.inl rfl⟩, h.2⟩
    · have hi9 := List.mem_range.1 hi
      exact ⟨i, y, hi9, hy, ⟨fun e => h.1 (Prod.mk.inj e).1, Or.inr (Or.inl rfl)⟩, h.2⟩
    · simp only [List.mem_range'_1] at hxx hyy
      refine ⟨xx, yy, by omega, by omega,
        ⟨fun e => hne.1 (Prod.mk.inj e).1, Or.inr (Or.inr ?_)⟩, rfl⟩
      constructor <;> omega

theorem SetField_exact {s : Sudoku} (hlen : s.length = 81) {x y d : Nat} (hx : x < 9)
    (hy : y < 9) (h1 : 1 ≤ d) (h9 : d ≤ 9) {f : Field} (hf : s[y * 9 + x]? = some f)
    (hm : f.mem d = true)
    (hq : ∀ x1 y1, x1 < 9 → y1 < 9 → Peers x y x1 y1 →
      ∀ g, s[y1 * 9 + x1]? = some g → g.Quiet d) :
    ∃ t, s.SetField x y d = .ret (t, none) ∧ t.length = 81 ∧
      t[y * 9 + x]? = some (2 ^ (d - 1)) ∧
      (∀ x1 y1, x1 < 9 → y1 < 9 → Peers x y x1 y1 →
        t[y1 * 9 + x1]? = (s[y1 * 9 + x1]?).map fun g => g.clear d) ∧
      (∀ x1 y1, x1 < 9 → y1 < 9 → ¬ Peers x y x1 y1 → (x1, y1) ≠ (x, y) →
        t[y1 * 9 + x1]? = s[y1 * 9 + x1]?) := by
  have hl : y * 9 + x < s.length := by rw [hlen]; omega
  have hne : ∀ x1 y1, x1 < 9 → y1 < 9 → (x1, y1) ≠ (x, y) → y * 9 + x ≠ y1 * 9 + x1 := by
    intro x1 y1 hx1 hy1 hn e
    apply hn
    have hxe : x1 = x := by omega
    have hye : y1 = y := by omega
    rw [hxe, hye]
  have hidx : ∀ i, (∃ x1 y1, x1 < 9 ∧ y1 < 9 ∧ Peers x y x1 y1 ∧ i = y1 * 9 + x1) →
      y * 9 + x ≠ i := by
    rintro i ⟨x1, y1, hx1, hy1, hp, rfl⟩
    exact hne x1 y1 hx1 hy1 hp.1
  obtain ⟨t, ht, htl, hti⟩ := Exact.peerLoops_exact h1 h9 (Sudoku.SetFieldN (9 * s.length)) hx hy
    (s.set (y * 9 + x) (2 ^ (d - 1)))
    (by
      rintro i ⟨x1, y1, hx1, hy1, _, rfl⟩
      rw [List.length_set, hlen]
      omega)
    (by
      intro i g hp hg
      rw [List.getElem?_set_ne (hidx i hp)] at hg
      obtain ⟨x1, y1, hx1, hy1, hpe, rfl⟩ := hp
      exact hq x1 y1 hx1 hy1 hpe g hg)
  refine ⟨t, ?_, by rw [htl, List.length_set, hlen], ?_, ?_, ?_⟩
  · unfold Sudoku.SetField Sudoku.SetFieldN
    simp only [Sudoku.index, Sudoku.coord, hf, Run.ret_bind, has_eq f h1 h9, hm,
      Bool.not_true, Bool.false_eq_true, if_false, add_zero_eq h1 h9]
    exact ht
  · rw [(hti _).2 fun hp => hidx _ hp rfl, List.getElem?_set_self hl]
  · intro x1 y1 hx1 hy1 hp
    rw [(hti _).1 ⟨x1, y1, hx1, hy1, hp, rfl⟩, List.getElem?_set_ne (hne x1 y1 hx1 hy1 hp.1)]
  · intro x1 y1 hx1 hy1 hnp hn
    have hnot : ¬ ∃ x2 y2, x2 < 9 ∧ y2 < 9 ∧ Peers x y x2 y2 ∧ y1 * 9 + x1 = y2 * 9 + x2 := by
      rintro ⟨x2, y2, hx2, hy2, hp, e⟩
      have hxe : x2 = x1 := by omega
      have hye : y2 = y1 := by omega
      rw [hxe, hye] at hp
      exact hnp hp
    rw [(hti _).2 hnot, List.getElem?_set_ne (hne x1 y1 hx1 hy1 hn)]

set_option synthInstance.maxHeartbeats 400000 in
set_option synthInstance.maxSize 2048 in
theorem quiet_of_calm : ∀ g : Nat, g < 512 → ∀ d : Nat, d < 10 →
    (1 ≤ d ∧ Field.digits g ≠ [] ∧ g ≠ 2 ^ (d - 1) ∧
      ¬ (Field.mem g d = true ∧ (Field.digits g).length = 2)) →
    Field.clear g d ≠ 0 ∧
      (Field.clear g d ≠ g → (Field.digits (Field.clear g d)).length ≠ 1) := by
  decide!

theorem peer_count : ∀ x, x < 9 → ∀ y, y < 9 →
    (allCells.filter fun c => Peers x y c.1 c.2).length = 20 := by
  decide!

theorem forall_getField_of_getD {s : Sudoku} {P : Nat → Nat → Field → Prop}
    (h : ∀ x1, x1 < 9 → ∀ y1, y1 < 9 → P x1 y1 (s.getD (y1 * 9 + x1) 0)) :
    ∀ x1 y1, x1 < 9 → y1 < 9 → ∀ g, s.GetField x1 y1 = .ret g → P x1 y1 g := by
  intro x1 y1 hx1 hy1 g hg
  have := h x1 hx1 y1 hy1
  rw [List.getD_eq_getElem?_getD, GetField_eq.1 hg] at this
  exact this

/-- C6, as stated, fails: on the fresh grid with cell (1, 0) emptied, cell
(0, 0) has the digit 1, no peer is the singleton of 1 and no peer with 1 has
exactly two candidates, yet `SetField(0, 0, 1)` returns an error. -/
theorem C6_counterexample :
    (∃ f, Sudoku.GetField Example.emptyPeer 0 0 = .ret f ∧ f.has 1 = .ret true) ∧
      (∀ x1 y1, x1 < 9 → y1 < 9 → ∀ g, Sudoku.GetField Example.emptyPeer x1 y1 = .ret g →
        Peers 0 0 x1 y1 → g.Calm 1) ∧
      ∃ t err, Sudoku.SetField Example.emptyPeer 0 0 1 = .ret (t, some err) :=
  ⟨⟨511, by decide, by decide⟩, forall_getField_of_getD (by decide!),
    ⟨(Example.emptyPeer.set 0 1).set 9 510, .cell 1 0 (.removeChecked 0 1), by decide!⟩⟩

/-- C6, amended with "no peer is empty". For every grid of 81 cells, each a
subset of 1..9, every position (x, y) and digit d in 1..9 such that the cell
has d and every peer is non-empty, is not the singleton of d, and does not
both have d and have exactly two candidates: the position has exactly 20
peers, `SetField` returns no error, the cell becomes the singleton of d, each
peer becomes its previous set with d removed, and every other cell keeps its
set. -/
theorem C6_assignment_without_cascade (s : Sudoku) (hlen : s.length = 81)
    (hcells : ∀ f ∈ s, f < 512) (x y d : Nat) (hx : x < 9) (hy : y < 9) (h1 : 1 ≤ d)
    (h9 : d ≤ 9) (hcell : ∃ f, s.GetField x y = .ret f ∧ f.has d = .ret true)
    (hpeers : ∀ x1 y1, x1 < 9 → y1 < 9 → ∀ g, s.GetField x1 y1 = .ret g →
      Peers x y x1 y1 → g.members ≠ .ret [] ∧ g.Calm d) :
    (allCells.filter fun c => Peers x y c.1 c.2).length = 20 ∧
      ∃ t, s.SetField x y d = .ret (t, none) ∧ t.length = 81 ∧
        t.GetField x y = Field.add 0 d ∧
        (∀ x1 y1, x1 < 9 → y1 < 9 → Peers x y x1 y1 →
          ∃ g, s.GetField x1 y1 = .ret g ∧ t.GetField x1 y1 = g.remove d) ∧
        (∀ x1 y1, x1 < 9 → y1 < 9 → ¬ Peers x y x1 y1 → (x1, y1) ≠ (x, y) →
          t.GetField x1 y1 = s.GetField x1 y1) := by
  obtain ⟨f, hf, hd⟩ := hcell
  rw [has_eq f h1 h9] at hd
  have hq : ∀ x1 y1, x1 < 9 → y1 < 9 → Peers x y x1 y1 →
      ∀ g, s[y1 * 9 + x1]? = some g → g.Quiet d := by
    intro x1 y1 hx1 hy1 hp g hg
    obtain ⟨hne, hsingle, htwo⟩ := hpeers x1 y1 hx1 hy1 g (GetField_eq.2 hg) hp
    rw [members_eq] at hne
    rw [add_zero_eq h1 h9] at hsingle
    rw [has_eq g h1 h9, members_eq, Run.ret_bind] at htwo
    refine quiet_of_calm g (hcells g (List.getElem?_mem hg)) d (by omega)
      ⟨h1, fun e => hne (by rw [e]), fun e => hsingle (by rw [e]), ?_⟩
    rintro ⟨hm, hl⟩
    exact htwo ⟨by rw [hm], by rw [hl]⟩
  obtain ⟨t, ht, htl, htc, htp, hto⟩ :=
    SetField_exact hlen hx hy h1 h9 (GetField_eq.1 hf) (Run.ret.inj hd) hq
  have hread : ∀ x1 y1, x1 < 9 → y1 < 9 →
      ∃ g, s[y1 * 9 + x1]? = some g := by
    intro x1 y1 hx1 hy1
    exact ⟨_, List.getElem?_eq_getElem (by rw [hlen]; omega)⟩
  have hget : ∀ (u : Sudoku) (x1 y1 : Nat), u.GetField x1 y1 =
      match u[y1 * 9 + x1]? with
      | some g => .ret g
      | none => .panic := fun _ _ _ => rfl
  refine ⟨peer_count x hx y hy, t, ht, htl, ?_, ?_, ?_⟩
  · rw [add_zero_eq h1 h9]
    exact GetField_eq.2 htc
  · intro x1 y1 hx1 hy1 hp
    obtain ⟨g, hg⟩ := hread x1 y1 hx1 hy1
    refine ⟨g, GetField_eq.2 hg, ?_⟩
    rw [Field.remove, set_false_eq g h1 h9]
    refine GetField_eq.2 ?_
    rw [htp x1 y1 hx1 hy1 hp, hg]
    rfl
  · intro x1 y1 hx1 hy1 hnp hn
    rw [hget t, hget s, hto x1 y1 hx1 hy1 hnp hn]

/-- C6 (amended) at the fresh grid and `SetField(0, 0, 1)`: the peer (1, 0)
becomes all digits but 1. -/
theorem C6_witness :
    ∃ t, Sudoku.SetField Example.fresh 0 0 1 = .ret (t, none) ∧
      ∃ g, Sudoku.GetField Example.fresh 1 0 = .ret g ∧ t.GetField 1 0 = g.remove 1 := by
  obtain ⟨_, t, ht, _, _, hp, _⟩ := C6_assignment_without_cascade Example.fresh (by decide)
    (by decide) 0 0 1 (by decide) (by decide) (by decide) (by decide)
    ⟨511, by decide, by decide⟩ (forall_getField_of_getD (by decide!))
  exact ⟨t, ht, hp 1 0 (by decide) (by decide) (by decide)⟩

/-! ## Candidate sets: members, `add` and `String` -/

theorem stringLoop_eq (f : Field) (l : List Nat) (hl : ∀ i ∈ l, i < 9) (buf : List Nat) :
    f.stringLoop l buf
      = .ret (l.foldl (fun b i => b.set i (if f.mem (i + 1) then 49 + i else 32)) buf) := by
  induction l generalizing buf with
  | nil => rfl
  | cons i rest ih =>
    have hi := hl i (List.mem_cons_self _ _)
    rw [Field.stringLoop, has_eq f (by omega) (by omega), Run.ret_bind,
      ih (fun j hj => hl j (List.mem_cons_of_mem _ hj))]
    have h : (49 + i) % 2 ^ 64 % 256 = 49 + i := by omega
    rw [h]
    rfl

theorem String_eq (f : Field) :
    f.String = .ret (String.mk [
      if f.mem 1 then '1' else ' ', if f.mem 2 then '2' else ' ',
      if f.mem 3 then '3' else ' ', if f.mem 4 then '4' else ' ',
      if f.mem 5 then '5' else ' ', if f.mem 6 then '6' else ' ',
      if f.mem 7 then '7' else ' ', if f.mem 8 then '8' else ' ',
      if f.mem 9 then '9' else ' ']) := by
  rw [Field.String, stringLoop_eq f _ (fun i hi => List.mem_range.1 hi), Run.ret_bind]
  congr 2
  simp only [List.range, List.range.loop, List.foldl, List.replicate, List.set, List.map]
  simp only [apply_ite Char.ofNat]

/-- C11. For every candidate set `S`, `S.members()` returns a strictly
ascending list (so one without duplicates) whose elements are exactly the
digits `d` of 1..9 for which `S.has(d)` is true, and the empty list for the
empty set. -/

theorem C11_members_ascending_exact (S : Field) :
    ∃ m, S.members = .ret m ∧ m.Pairwise (· < ·) ∧ m.Nodup ∧
      (∀ d, d ∈ m ↔ 1 ≤ d ∧ d ≤ 9 ∧ S.has d = .ret true) ∧ (S = 0 → m = []) := by
  have hp : S.digits.Pairwise (· < ·) := List.Pairwise.filter _ (List.pairwise_lt_range' 1 9)
  refine ⟨S.digits, members_eq S, hp, hp.imp (fun h => Nat.ne_of_lt h), fun d => ?_, fun h => ?_⟩
  · rw [mem_digits]
    constructor
    · rintro ⟨⟨h1, h9⟩, h⟩
      exact ⟨h1, h9, by rw [has_eq S h1 h9, h]⟩
    · rintro ⟨h1, h9, h⟩
      rw [has_eq S h1 h9] at h
      exact ⟨⟨h1, h9⟩, Run.ret.inj h⟩
  · subst h
    rfl

/-- C13. For every candidate set `S` and digit `d` of 1..9, `S.add(d)` has
`d`, adding `d` again changes nothing, `S.add(d)` is `S` when `S` has `d`, and
every other digit of 1..9 is a member of `S.add(d)` exactly when it is one of
`S`. -/

theorem C13_add_has_idempotent (S : Field) (d : Nat) (h1 : 1 ≤ d) (h9 : d ≤ 9) :
    ∃ T, S.add d = .ret T ∧ T.has d = .ret true ∧ T.add d = .ret T ∧
      (S.has d = .ret true → T = S) ∧
      ∀ e, 1 ≤ e → e ≤ 9 → e ≠ d → T.has e = S.has e := by
  have hadd : ∀ f : Field, f.add d = .ret (f ||| 2 ^ (d - 1)) := fun f => by
    simp only [Field.add, Field.set, bit_eq h1 h9, Run.ret_bind, if_true]
  refine ⟨S ||| 2 ^ (d - 1), hadd S, ?_, ?_, ?_, ?_⟩
  · rw [has_eq _ h1 h9, Field.mem, Nat.testBit_or, Nat.testBit_two_pow_self, Bool.or_true]
  · rw [hadd, Nat.or_assoc, Nat.or_self]
  · intro h
    rw [has_eq S h1 h9] at h
    have hm : S.testBit (d - 1) = true := Run.ret.inj h
    apply Nat.eq_of_testBit_eq
    intro k
    rw [Nat.testBit_or, Nat.testBit_two_pow]
    by_cases hk : d - 1 = k
    · subst hk; simp [hm]
    · simp [hk]
  · intro e he1 he9 hne
    rw [has_eq _ he1 he9, has_eq S he1 he9, Field.mem, Field.mem, Nat.testBit_or,
      Nat.testBit_two_pow]
    have hk : ¬ d - 1 = e - 1 := by omega
    simp [hk]

/-- C13 at the set {1, 3} and the digit 2. -/

theorem C13_witness :
    ∃ T, Field.add 5 2 = .ret T ∧ T.has 2 = .ret true ∧ T.add 2 = .ret T ∧
      (Field.has 5 2 = .ret true → T = 5) ∧
      ∀ e, 1 ≤ e → e ≤ 9 → e ≠ 2 → T.has e = Field.has 5 e :=
  C13_add_has_idempotent 5 2 (by decide) (by decide)

/-- C14. `NewSudoku()` returns a grid of exactly 81 cells, and for every
`(x, y)` with `x, y < 9` the members of `GetField(x, y)` are 1, 2, ..., 9. -/

theorem C14_new_grid_all_open :
    ∃ s, NewSudoku = .ret s ∧ s.length = 81 ∧
      ∀ x, x < 9 → ∀ y, y < 9 →
        (s.GetField x y).bind Field.members = .ret [1, 2, 3, 4, 5, 6, 7, 8, 9] :=
  ⟨List.replicate 81 511, NewSudoku_eq, by decide, by decide!⟩

/-- C15. For every candidate set `S`, `S.String()` returns a string of
exactly 9 characters whose `i`-th character, for `i` in 0..8, is the digit
character of `i + 1` when `S.has(i + 1)` is true and a space otherwise. -/

theorem C15_string_nine_chars (S : Field) :
    ∃ str : String, S.String = .ret str ∧ str.length = 9 ∧
      ∀ i, i < 9 → ∃ h, S.has (i + 1) = .ret h ∧
        str.toList[i]? = some (if h then Char.ofNat (48 + (i + 1)) else ' ') := by
  refine ⟨_, String_eq S, rfl, fun i hi => ⟨S.mem (i + 1), has_eq S (by omega) (by omega), ?_⟩⟩
  interval_cases i <;> rfl

/-- C19 fails on the code: `Parse` takes the character `0` for a digit and
hands the digit 0 to `SetField`, whose `has(0)` reaches the fatal branch of
`bit`. -/

theorem C19_parse_zero_is_fatal :
    Parse "0" = .fatal ∧ Sudoku.SetField Example.fresh 0 0 0 = .fatal ∧
      Field.has 511 0 = .fatal ∧ bit 0 = .fatal :=
  ⟨by decide, by decide, by decide, by decide⟩

/-! ## The dropped error, the search and termination -/

theorem Sudoku.Le.keeps_single {t s : Sudoku} (h : Sudoku.Le t s) {i k : Nat}
    (hs : s[i]? = some (2 ^ k)) : t[i]? = some (2 ^ k) := by
  obtain ⟨g, hg, hsub⟩ := h.getElem? hs
  rw [hg, hsub.two_pow]

theorem Sudoku.Fixed.narrow_fixed {t s : Sudoku} {n : Nat} (hs : s.Fixed n) (h : Sudoku.Le t s) :
    t.Fixed n := by
  intro j hj
  obtain ⟨d, h1, h9, hd⟩ := hs j hj
  exact ⟨d, h1, h9, h.keeps_single hd⟩

theorem Sudoku.Open.wf {s : Sudoku} (h : s.Open) : s.WF :=
  ⟨h.1, fun f hf => lt_trans (h.2 f hf).2 (by norm_num)⟩

theorem Sudoku.Open.narrow_open {t s : Sudoku} (hs : s.Open) (h : Sudoku.Le t s) : t.Open :=
  ⟨h.length_eq.trans hs.1, h.forall_mem
    (fun _ _ hsub hf => ⟨hsub.2 hf.1, hsub.lt_two_pow (n := 9) hf.2⟩) hs.2⟩

theorem single_of_short : ∀ f : Nat, f < 512 → f ≠ 0 → ¬ (Field.digits f).length > 1 →
    ∃ d, d < 10 ∧ 1 ≤ d ∧ f = 2 ^ (d - 1) := by
  decide!

theorem tryChoices_fixed {recur : Sudoku → Nat → Result} {s : Sudoku} (hs : s.Open) {i : Nat}
    (hi : i < 81) (hpre : s.Fixed i)
    (hrec : ∀ s2 t : Sudoku, s2.Open → s2.Fixed (i + 1) → recur s2 (i + 1) = .ret (t, none) →
      t.Fixed 81) :
    ∀ choices : List Nat, (∀ d ∈ choices, 1 ≤ d ∧ d ≤ 9) → ∀ lastErr t,
      Sudoku.tryChoices recur s i choices lastErr = .ret (t, none) → t.Fixed 81 := by
  intro choices
  induction choices with
  | nil =>
    intro _ lastErr t h
    cases h
  | cons num rest ih =>
    intro hc lastErr t h
    have hnum := hc num (List.mem_cons_self _ _)
    have hrest : ∀ d ∈ rest, 1 ≤ d ∧ d ≤ 9 := fun d hd => hc d (List.mem_cons_of_mem _ hd)
    have hx : i % 9 < 9 := by omega
    have hy : i / 9 < 9 := by omega
    obtain ⟨s2, e1, h1, hle1, ha⟩ := SetField_sound hs.wf hx hy hnum.1 hnum.2
    unfold Sudoku.tryChoices at h
    rw [h1, Run.ret_bind] at h
    cases e1 with
    | some err => exact ih hrest lastErr t h
    | none =>
      obtain ⟨⟨t2, e2⟩, h2, h3⟩ := ret_of_bind_eq_ret h
      cases e2 with
      | some err => exact ih hrest (some err) t h3
      | none =>
        cases h3
        refine hrec s2 _ (hs.narrow_open hle1) ?_ h2
        intro j hj
        by_cases hji : j < i
        · exact (hpre.narrow_fixed hle1) j hji
        · have hje : j = i := by omega
          have hidx : i / 9 * 9 + i % 9 = i := by omega
          have := (ha rfl).1
          rw [hidx] at this
          exact ⟨num, hnum.1, hnum.2, by rw [hje]; exact this⟩

theorem scan_fixed {recur : Sudoku → Nat → Result} {s : Sudoku} (hs : s.Open)
    (hrec : ∀ i, i < 81 → ∀ s2 t : Sudoku, s2.Open → s2.Fixed (i + 1) →
      recur s2 (i + 1) = .ret (t, none) → t.Fixed 81) :
    ∀ (vs : List Field) (i : Nat), s.drop i = vs → s.Fixed i → ∀ t,
      Sudoku.scan recur s vs i = .ret (t, none) → t.Fixed 81 := by
  intro vs
  induction vs with
  | nil =>
    intro i hdrop hpre t h
    cases h
    have hge : s.length ≤ i := List.drop_eq_nil_iff.1 hdrop
    rw [hs.1] at hge
    exact fun j hj => hpre j (by omega)
  | cons v vs ih =>
    intro i hdrop hpre t h
    have hi : i < s.length := by
      by_contra hge
      rw [List.drop_eq_nil_of_le (by omega)] at hdrop
      cases hdrop
    rw [List.drop_eq_getElem_cons hi] at hdrop
    have hv : s[i] = v := (List.cons.inj hdrop).1
    have hvs : s.drop (i + 1) = vs := (List.cons.inj hdrop).2
    have hi81 : i < 81 := by rw [← hs.1]; exact hi
    unfold Sudoku.scan at h
    rw [members_eq, Run.ret_bind] at h
    by_cases hl : v.digits.length > 1
    · rw [if_pos hl] at h
      exact tryChoices_fixed hs hi81 hpre (hrec i hi81) v.digits
        (fun d hd => (mem_digits.1 hd).1) none t h
    · rw [if_neg hl] at h
      have hmem : v ∈ s := by rw [← hv]; exact List.getElem_mem _
      obtain ⟨h0, h512⟩ := hs.2 v hmem
      obtain ⟨d, hd10, hd1, hd⟩ := single_of_short v h512 h0 hl
      refine ih (i + 1) hvs (fun j hj => ?_) t h
      by_cases hji : j < i
      · exact hpre j hji
      · have hje : j = i := by omega
        refine ⟨d, hd1, by omega, ?_⟩
        rw [hje, List.getElem?_eq_getElem hi, hv, hd]

theorem solveN_fixed (fuel : Nat) : ∀ (s : Sudoku) (start : Nat), s.Open → s.Fixed start →
    ∀ t, Sudoku.solveN fuel s start = .ret (t, none) → t.Fixed 81 := by
  induction fuel with
  | zero =>
    intro s start _ _ t h
    cases h
  | succ fuel ih =>
    intro s start hs hpre t h
    unfold Sudoku.solveN at h
    by_cases hl : start > s.length
    · rw [if_pos hl] at h
      cases h
    · rw [if_neg hl] at h
      exact scan_fixed hs (fun i _ s2 t2 hs2 hf2 => ih s2 (i + 1) hs2 hf2 t2) _ start rfl hpre t h

theorem remove_sound {s : Sudoku} (hs : s.WF) {x y num : Nat} (hx : x < 9) (hy : y < 9)
    (h1 : 1 ≤ num) (h9 : num ≤ 9) :
    ∃ t e, s.remove x y num = .ret (t, e) ∧ t.Le s ∧ (e = none → t.Lacks x y num) := by
  have hset : ∀ m, m < 9 * s.length + 1 → ∀ x y d, x < 9 → y < 9 → 1 ≤ d → d ≤ 9 →
      Sound m (fun t => Sudoku.SetFieldN (9 * s.length + 1) t x y d) fun _ => True :=
    fun m hm x y d hx hy hd1 hd9 =>
      (Sound.SetFieldN (9 * s.length) m (by omega) x y d hx hy hd1 hd9).mono fun _ _ => trivial
  have hgood : s.Good (9 * s.length + 1) := ⟨hs.1, hs.2, by have := weight_le_bound s; omega⟩
  exact Sound.removeWith hset hx hy h1 h9 s hgood

/-- C16 fails on the code: in the grid `SetField(0, 0, 1)` has built when it
makes its first `remove` call, cell (0, 1) holds {1, 2}; removing 1 leaves the
single candidate 2, the cascaded `SetField(0, 1, 2)` returns the error of
cell (0, 2), which holds only 2, and yet `remove` returns no error, and so
does the `SetField(0, 0, 1)` that called it. -/

theorem C16_cascaded_error_dropped :
    Example.pinned.length = 81 ∧
      Sudoku.GetField (Example.pinned.set 0 1) 0 1 = .ret 3 ∧
      Field.removeChecked 3 1 = .ret (2, none) ∧ Field.members 2 = .ret [2] ∧
      (Sudoku.SetField ((Example.pinned.set 0 1).set 9 2) 0 1 2).bind (fun r => .ret r.2)
        = .ret (some (.cell 0 2 (.removeChecked 2 2))) ∧
      (Sudoku.remove (Example.pinned.set 0 1) 0 1 1).bind (fun r => .ret r.2) = .ret none ∧
      (Sudoku.SetField Example.pinned 0 0 1).bind (fun r => .ret r.2) = .ret none :=
  ⟨by decide, by decide, by decide, by decide, by decide!, by decide!, by decide!⟩

/-- C17. For every grid of 81 cells that are non-empty subsets of 1..9, if
`Solve` returns no error then every cell of the grid it returns has exactly
one candidate. -/

theorem C17_success_is_determined (g : Sudoku) (hlen : g.length = 81)
    (hcells : ∀ f ∈ g, f ≠ 0 ∧ f < 512) (t : Sudoku) (h : g.Solve = .ret (t, none)) :
    t.length = 81 ∧ ∀ x y, x < 9 → y < 9 →
      ∃ f d, t.GetField x y = .ret f ∧ f.members = .ret [d] := by
  have hopen : g.Open := ⟨hlen, hcells⟩
  obtain ⟨t1, e1, h1, hle, _⟩ := Solve_spec hopen.wf
  rw [h] at h1
  cases h1
  have hfix : t.Fixed 81 := solveN_fixed _ g 0 hopen (fun j hj => by omega) t h
  refine ⟨hle.length_eq.trans hlen, fun x y hx hy => ?_⟩
  obtain ⟨d, hd1, hd9, hd⟩ := hfix (y * 9 + x) (by omega)
  refine ⟨_, d, GetField_eq.2 hd, ?_⟩
  rw [members_eq]
  have : ∀ d : Nat, d < 10 → 1 ≤ d → Field.digits (2 ^ (d - 1)) = [d] := by decide
  rw [this d (by omega) hd1]

/-- C18. On every grid of 81 cells, for every position and every digit of
1..9, `SetField` and `remove` return, and `Solve` returns, with either a grid
and no error or an error. -/

theorem C18_termination (s : Sudoku) (hlen : s.length = 81) (hu : ∀ f ∈ s, f < 2 ^ 64) :
    (∀ x y d, x < 9 → y < 9 → 1 ≤ d → d ≤ 9 →
      (∃ t e, s.SetField x y d = .ret (t, e)) ∧ ∃ t e, s.remove x y d = .ret (t, e)) ∧
      ∃ t e, s.Solve = .ret (t, e) := by
  have hs : s.WF := ⟨hlen, hu⟩
  refine ⟨fun x y d hx hy h1 h9 => ⟨?_, ?_⟩, ?_⟩
  · obtain ⟨t, e, h, _⟩ := SetField_sound hs hx hy h1 h9
    exact ⟨t, e, h⟩
  · obtain ⟨t, e, h, _⟩ := remove_sound hs hx hy h1 h9
    exact ⟨t, e, h⟩
  · obtain ⟨t, e, h, _⟩ := Solve_spec hs
    exact ⟨t, e, h⟩

/-- C20. On every grid `g` of 81 cells `Solve` returns a grid, with or
without an error, in which every cell has only digits that the same cell of
`g` has. -/

theorem C20_solve_only_narrows (g : Sudoku) (hlen : g.length = 81)
    (hu : ∀ f ∈ g, f < 2 ^ 64) :
    ∃ t e, g.Solve = .ret (t, e) ∧ t.length = 81 ∧
      ∀ x y, x < 9 → y < 9 → ∃ ft fg, t.GetField x y = .ret ft ∧ g.GetField x y = .ret fg ∧
        ∀ d, 1 ≤ d → d ≤ 9 → ft.has d = .ret true → fg.has d = .ret true := by
  obtain ⟨t, e, h, hle, _⟩ := Solve_spec (⟨hlen, hu⟩ : g.WF)
  refine ⟨t, e, h, hle.length_eq.trans hlen, fun x y hx hy => ?_⟩
  have hl : y * 9 + x < g.length := by rw [hlen]; omega
  have hf : g[y * 9 + x]? = some g[y * 9 + x] := List.getElem?_eq_getElem hl
  obtain ⟨ft, hft, hsub⟩ := hle.getElem? hf
  refine ⟨ft, _, GetField_eq.2 hft, GetField_eq.2 hf, fun d h1 h9 hd => ?_⟩
  rw [has_eq _ h1 h9] at hd ⊢
  rw [Field.mem, hsub.1 _ (Run.ret.inj hd)]

/-! ## The givens of `Parse` -/

theorem parseLine_givens (y : Nat) (hy : y < 9) (line : List Char) :
    ∀ (x : Nat) (s t : Sudoku), s.WF → x + (cellChars line).length ≤ 9 →
      (∀ c ∈ cellChars line, c.toNat ≠ 48) → parseLine y line x s = .ret (t, none) →
      t.Le s ∧ ∀ k c, (cellChars line)[k]? = some c → c.toNat ≠ 95 →
        t[y * 9 + (x + k)]? = some (2 ^ (c.toNat - 49)) := by
  induction line with
  | nil =>
    intro x s t _ _ _ h
    cases h
    exact ⟨Sudoku.Le.refl _, fun k c hk => by simp [cellChars] at hk⟩
  | cons field rest ih =>
    intro x s t hs hlen hc h
    unfold parseLine at h
    by_cases h1 : field.toNat = 95
    · rw [if_pos h1] at h
      have hcc : cellChars (field :: rest) = field :: cellChars rest := by
        simp [cellChars, h1]
      rw [hcc] at hlen hc ⊢
      obtain ⟨hle, hk⟩ := ih (x + 1) s t hs (by simp at hlen; omega)
        (fun c hcm => hc c (List.mem_cons_of_mem _ hcm)) h
      refine ⟨hle, fun k c hkc hne => ?_⟩
      cases k with
      | zero =>
        simp only [List.getElem?_cons_zero, Option.some.injEq] at hkc
        rw [← hkc] at hne
        exact absurd h1 hne
      | succ k =>
        have := hk k c (by simpa using hkc) hne
        rw [show x + (k + 1) = x + 1 + k by omega]
        exact this
    · rw [if_neg h1] at h
      by_cases h2 : field.toNat < 48 ∨ field.toNat > 57
      · rw [if_pos h2] at h
        have hcc : cellChars (field :: rest) = cellChars rest := by
          simp only [cellChars, List.filter_cons]
          rw [if_neg (by simp [h1, h2])]
        rw [hcc] at hlen hc ⊢
        exact ih x s t hs hlen hc h
      · rw [if_neg h2] at h
        have hcc : cellChars (field :: rest) = field :: cellChars rest := by
          simp only [cellChars, List.filter_cons]
          rw [if_pos (by simp [h2])]
        rw [hcc] at hlen hc ⊢
        have h48 : field.toNat ≠ 48 := hc field (List.mem_cons_self _ _)
        have hx : x < 9 := by simp at hlen; omega
        have hd1 : 1 ≤ field.toNat - 48 := by omega
        have hd9 : field.toNat - 48 ≤ 9 := by omega
        obtain ⟨s1, e1, hset, hle1, ha⟩ := SetField_sound hs hx hy hd1 hd9
        rw [hset, Run.ret_bind] at h
        cases e1 with
        | some err => cases h
        | none =>
          obtain ⟨hle, hk⟩ := ih (x + 1) s1 t (hs.narrow hle1) (by simp at hlen; omega)
            (fun c hcm => hc c (List.mem_cons_of_mem _ hcm)) h
          refine ⟨hle.trans hle1, fun k c hkc hne => ?_⟩
          cases k with
          | zero =>
            simp only [List.getElem?_cons_zero, Option.some.injEq] at hkc
            rw [← hkc]
            have hcell := hle.keeps_single (ha rfl).1
            rw [show field.toNat - 48 - 1 = field.toNat - 49 by omega] at hcell
            exact hcell
          | succ k =>
            have := hk k c (by simpa using hkc) hne
            rw [show x + (k + 1) = x + 1 + k by omega]
            exact this

theorem parseLines_givens (lines : List (List Char)) :
    ∀ (y : Nat) (s t : Sudoku), s.WF →
      y + (lines.filter fun line => !line.all isSpace).length ≤ 9 →
      (∀ row ∈ lines.filter fun line => !line.all isSpace,
        (cellChars row).length ≤ 9 ∧ ∀ c ∈ cellChars row, c.toNat ≠ 48) →
      parseLines lines y s = .ret (t, none) →
      t.Le s ∧ ∀ j row k c, (lines.filter fun line => !line.all isSpace)[j]? = some row →
        (cellChars row)[k]? = some c → c.toNat ≠ 95 →
        t[(y + j) * 9 + k]? = some (2 ^ (c.toNat - 49)) := by
  induction lines with
  | nil =>
    intro y s t _ _ _ h
    cases h
    exact ⟨Sudoku.Le.refl _, fun j row k c hj => by simp at hj⟩
  | cons line rest ih =>
    intro y s t hs hlen hrows h
    unfold parseLines at h
    by_cases hb : line.all isSpace
    · rw [if_pos hb] at h
      have hf : ((line :: rest).filter fun line => !line.all isSpace)
          = rest.filter fun line => !line.all isSpace := by
        rw [List.filter_cons, if_neg (by simp [hb])]
      rw [hf] at hlen hrows ⊢
      exact ih y s t hs hlen hrows h
    · rw [if_neg hb] at h
      have hf : ((line :: rest).filter fun line => !line.all isSpace)
          = line :: rest.filter fun line => !line.all isSpace := by
        rw [List.filter_cons, if_pos (by simp [hb])]
      rw [hf] at hlen hrows ⊢
      have hy : y < 9 := by simp at hlen; omega
      obtain ⟨hl9, hl0⟩ := hrows line (List.mem_cons_self _ _)
      obtain ⟨⟨s1, e1⟩, hline, h2⟩ := ret_of_bind_eq_ret h
      cases e1 with
      | some err => cases h2
      | none =>
        obtain ⟨hle1, hk1⟩ := parseLine_givens y hy line 0 s s1 hs (by omega) hl0 hline
        obtain ⟨hle, hk⟩ := ih (y + 1) s1 t (hs.narrow hle1) (by simp at hlen; omega)
          (fun row hr => hrows row (List.mem_cons_of_mem _ hr)) h2
        refine ⟨hle.trans hle1, fun j row k c hj hkc hne => ?_⟩
        cases j with
        | zero =>
          simp only [List.getElem?_cons_zero, Option.some.injEq] at hj
          rw [← hj] at hkc
          have := hle.keeps_single (hk1 k c hkc hne)
          rw [Nat.zero_add] at this
          exact this
        | succ j =>
          have := hk j row k c (by simpa using hj) hkc hne
          rw [show y + (j + 1) = y + 1 + j by omega]
          exact this

/-- C12. For every text with nine non-blank lines, each with exactly nine
cell characters (`_` or a digit, none of them `0`; other characters take no
column), if `Parse` returns no error, then for every row `y` and column `x`
whose cell character is a digit `c`, `GetField(x, y)` of the returned grid is
the singleton of `c`, the set `Field(0).add(c)`, whose only member is `c`. -/

theorem C12_parse_honours_givens (input : String) (hrows : (rowsOf input).length = 9)
    (hcells : ∀ row ∈ rowsOf input,
      (cellChars row).length = 9 ∧ ∀ c ∈ cellChars row, c.toNat ≠ 48)
    (t : Sudoku) (hparse : Parse input = .ret (t, none)) :
    ∀ x y row c, (rowsOf input)[y]? = some row → (cellChars row)[x]? = some c →
      c.toNat ≠ 95 →
      t.GetField x y = Field.add 0 (c.toNat - 48) ∧
        (t.GetField x y).bind Field.members = .ret [c.toNat - 48] := by
  intro x y row c hy hx hne
  unfold Parse at hparse
  rw [AllPossible_eq, Run.ret_bind] at hparse
  obtain ⟨⟨s1, e1⟩, hlines, h2⟩ := ret_of_bind_eq_ret hparse
  cases e1 with
  | some err => cases h2
  | none =>
    cases h2
    have hwf : Sudoku.WF (List.replicate (9 * 9) 511) :=
      ⟨by simp, fun f hf => by rw [List.eq_of_mem_replicate hf]; norm_num⟩
    obtain ⟨_, hk⟩ := parseLines_givens _ 0 _ _ hwf (by unfold rowsOf at hrows; omega)
      (fun row hr => ⟨Nat.le_of_eq (hcells row hr).1, (hcells row hr).2⟩) hlines
    have hcell := hk y row x c hy hx hne
    rw [Nat.zero_add] at hcell
    have hmem : c ∈ cellChars row := List.getElem?_mem hx
    have hrow : row ∈ rowsOf input := List.getElem?_mem hy
    have h48 : c.toNat ≠ 48 := (hcells row hrow).2 c hmem
    have hdig : ¬ (c.toNat < 48 ∨ c.toNat > 57) := by
      have := (List.mem_filter.1 hmem).2
      simp only [decide_eq_true_eq] at this
      rcases this with h | h
      · exact absurd h hne
      · exact h
    have hd1 : 1 ≤ c.toNat - 48 := by omega
    have hd9 : c.toNat - 48 ≤ 9 := by omega
    have hget : t.GetField x y = .ret (2 ^ (c.toNat - 49)) := GetField_eq.2 hcell
    have hsingle : ∀ d : Nat, d < 10 → 1 ≤ d → Field.digits (2 ^ (d - 1)) = [d] := by decide
    refine ⟨?_, ?_⟩
    · rw [hget, add_zero_eq hd1 hd9, show c.toNat - 48 - 1 = c.toNat - 49 by omega]
    · rw [hget, Run.ret_bind, members_eq, show c.toNat - 49 = c.toNat - 48 - 1 by omega,
        hsingle _ (by omega) hd1]

/-- C12 at the puzzle of `TestSolve`: its first row has the digit 2 in column
1, and cell (1, 0) of the parsed grid holds exactly 2. -/

theorem C12_witness :
    Example.parsed.GetField 1 0 = Field.add 0 ('2'.toNat - 48) ∧
      (Example.parsed.GetField 1 0).bind Field.members = .ret ['2'.toNat - 48] :=
  C12_parse_honours_givens Example.puzzle (by decide!) (by decide!) Example.parsed
    Example.parse_puzzle 1 0 "    _2_9__4__".toList '2' (by decide!) (by decide!) (by decide)

/-- C17 at the puzzle of `TestSolve`. -/

theorem C17_witness :
    Example.solved.length = 81 ∧ ∀ x y, x < 9 → y < 9 →
      ∃ f d, Example.solved.GetField x y = .ret f ∧ f.members = .ret [d] :=
  C17_success_is_determined Example.parsed (by decide) (by decide) Example.solved
    Example.solve_parsed

/-- C18 at the fresh grid. -/

theorem C18_witness :
    (∀ x y d, x < 9 → y < 9 → 1 ≤ d → d ≤ 9 →
      (∃ t e, Example.fresh.SetField x y d = .ret (t, e)) ∧
        ∃ t e, Example.fresh.remove x y d = .ret (t, e)) ∧
      ∃ t e, Example.fresh.Solve = .ret (t, e) :=
  C18_termination Example.fresh (by decide) (by decide)

/-- C20 at the grid of `TestSetField` after its first assignment. -/

theorem C20_witness :
    ∃ t e, Example.afterOne.Solve = .ret (t, e) ∧ t.length = 81 ∧
      ∀ x y, x < 9 → y < 9 → ∃ ft fg, t.GetField x y = .ret ft ∧
        Example.afterOne.GetField x y = .ret fg ∧
        ∀ d, 1 ≤ d → d ≤ 9 → ft.has d = .ret true → fg.has d = .ret true :=
  C20_solve_only_narrows Example.afterOne (by decide) (by decide)

end GoSudoku
